import Mathlib

/-! tsh: job table, launcher registration, reaper and bg/fg.

A shallow embedding of the job-control part of `src/tsh.c`.

* `int` and `pid_t` values are `Int`; overflow of `int` arithmetic, which C
  leaves undefined, is not modelled. `atoi` gives the exact value of the
  digits it reads, which is what the code works with when that value fits
  the 32-bit `int` it is stored in (`FitsInt`); statements about an arbitrary
  argument text are made for such values only.
* The global `jobs[MAXJOBS]` is a `List job_t`; the loops
  `for (i = 0; i < MAXJOBS; i++)` scan that list front to back.
  `initjobs` produces the `MAXJOBS`-slot table.
* A `struct job_t *` is the index of the slot it points to, together with
  the slot read at the time of the lookup; `NULL` is `none`.  Reading a
  field through `NULL` is an error of the program and is `none` in the
  result of the function that does it.
* `printf`, `kill`, `waitfg` and every store into a slot are recorded, in
  program order, in a list of `Event`s.
-/

namespace Tsh

/-! ## Constants -/

/-- The constant `MAXJOBS`: max jobs at any point in time. -/
def MAXJOBS : Nat := 16

/-- Job state `UNDEF`. -/
def UNDEF : Int := 0
/-- Job state `FG`: running in foreground. -/
def FG : Int := 1
/-- Job state `BG`: running in background. -/
def BG : Int := 2
/-- Job state `ST`: stopped. -/
def ST : Int := 3

/-- The signals the shell sends with `kill`. -/
inductive Sig where
  | SIGINT
  | SIGTSTP
  | SIGCONT
  deriving DecidableEq, Repr

/-- What `waitpid` stores into `status`, as the `W*` macros read it: the four
kinds are mutually exclusive. -/
inductive WStatus where
  | exited (code : Int)
  | signaled (sig : Int)
  | stopped (sig : Int)
  | continued
  deriving DecidableEq, Repr

def WIFEXITED : WStatus → Bool
  | .exited _ => true
  | _ => false

def WIFSIGNALED : WStatus → Bool
  | .signaled _ => true
  | _ => false

def WIFSTOPPED : WStatus → Bool
  | .stopped _ => true
  | _ => false

def WIFCONTINUED : WStatus → Bool
  | .continued => true
  | _ => false

def WTERMSIG : WStatus → Int
  | .signaled n => n
  | _ => 0

def WSTOPSIG : WStatus → Int
  | .stopped n => n
  | _ => 0

/-! ## Data model -/

/-- The job struct `struct job_t`. -/
structure job_t where
  pid : Int
  pgid : Int
  jid : Int
  state : Int
  cmdline : String
  deriving DecidableEq, Repr

/-- The globals the job-control code reads and writes: `jobs`, `nextjid` and
`verbose`. -/
structure Shell where
  jobs : List job_t
  nextjid : Int
  verbose : Bool
  deriving DecidableEq, Repr

/-- An argument of a `printf` call. -/
inductive Arg where
  | int (n : Int)
  | str (s : String)
  deriving DecidableEq, Repr

/-- The observable actions of the code, in program order. -/
inductive Event where
  /-- The call `printf(fmt, args...)`. -/
  | printf (fmt : String) (args : List Arg)
  /-- The call `kill(target, sig)`. -/
  | kill (target : Int) (sig : Sig)
  /-- The call `waitfg(pid)`. -/
  | waitfg (pid : Int)
  /-- A store into slot `i` of `jobs`. -/
  | write (i : Nat)
  deriving DecidableEq, Repr

/-- The `printf` calls of a trace. -/
def outputs (t : List Event) : List Event :=
  t.filter fun e => match e with
    | .printf _ _ => true
    | _ => false

/-- The `kill` calls of a trace. -/
def signals (t : List Event) : List Event :=
  t.filter fun e => match e with
    | .kill _ _ => true
    | _ => false

/-- The `waitfg` calls of a trace. -/
def waits (t : List Event) : List Event :=
  t.filter fun e => match e with
    | .waitfg _ => true
    | _ => false

/-! ## Helper routines that manipulate the job list -/

/-- The loop `for (i = 0; i < MAXJOBS; i++) if (p(jobs[i])) return &jobs[i];`:
the first slot satisfying `p`, with its index; `none` when the loop falls
through. -/
def firstSlot (p : job_t → Bool) : List job_t → Option (Nat × job_t)
  | [] => none
  | j :: js =>
    if p j then some (0, j)
    else match firstSlot p js with
      | some (i, x) => some (i + 1, x)
      | none => none

/-- Function `clearjob`: clear the entries in a job struct (`pgid` is not
touched). -/
def clearjob (job : job_t) : job_t :=
  { job with pid := 0, jid := 0, state := UNDEF, cmdline := "" }

/-- The zero-filled global array `jobs` before `initjobs` runs. -/
def zeroJobs : List job_t :=
  List.replicate MAXJOBS { pid := 0, pgid := 0, jid := 0, state := 0, cmdline := "" }

/-- Function `initjobs`: initialize the job list. -/
def initjobs (jobs : List job_t) : List job_t :=
  jobs.map clearjob

/-- The globals when `main` enters the read/eval loop: `initjobs(jobs)` has
run and `nextjid` is 1. -/
def initShell (verbose : Bool) : Shell :=
  { jobs := initjobs zeroJobs, nextjid := 1, verbose := verbose }

/-- Function `maxjid`: returns largest allocated job ID. -/
def maxjid (jobs : List job_t) : Int :=
  jobs.foldl (fun max j => if j.jid > max then j.jid else max) 0

/-- Function `addjob`: add a job to the job list. Returns the globals, the
return value and the trace. -/
def addjob (sh : Shell) (pid pgid state : Int) (cmdline : String) :
    Shell × Int × List Event :=
  if pid < 1 then (sh, 0, [])
  else
    match firstSlot (fun j => j.pid == 0) sh.jobs with
    | some (i, _) =>
      let job : job_t :=
        { pid := pid, pgid := pgid, state := state, jid := sh.nextjid, cmdline := cmdline }
      let nextjid := sh.nextjid + 1
      let nextjid := if nextjid > (MAXJOBS : Int) then 1 else nextjid
      ({ sh with jobs := sh.jobs.set i job, nextjid := nextjid }, 1,
        Event.write i ::
          (if sh.verbose then
            [Event.printf "Added job [%d] %d %s\n" [.int job.jid, .int job.pid, .str job.cmdline]]
           else []))
    | none => (sh, 0, [Event.printf "Tried to create too many jobs\n" []])

/-- Function `deletejob`: delete a job whose PID=pid from the job list. -/
def deletejob (sh : Shell) (pid : Int) : Shell × Int × List Event :=
  if pid < 1 then (sh, 0, [])
  else
    match firstSlot (fun j => j.pid == pid) sh.jobs with
    | some (i, job) =>
      let jobs := sh.jobs.set i (clearjob job)
      ({ sh with jobs := jobs, nextjid := maxjid jobs + 1 }, 1, [Event.write i])
    | none => (sh, 0, [])

/-- Function `fgpid`: return PID of current foreground job, 0 if no such job. -/
def fgpid (jobs : List job_t) : Int :=
  match firstSlot (fun j => j.state == FG) jobs with
  | some (_, job) => job.pid
  | none => 0

/-- Function `getjobpid`: find a job (by PID) on the job list. -/
def getjobpid (jobs : List job_t) (pid : Int) : Option (Nat × job_t) :=
  if pid < 1 then none
  else firstSlot (fun j => j.pid == pid) jobs

/-- Function `getjobjid`: find a job (by JID) on the job list. -/
def getjobjid (jobs : List job_t) (jid : Int) : Option (Nat × job_t) :=
  if jid < 1 then none
  else firstSlot (fun j => j.jid == jid) jobs

/-- Function `pid2jid`: map process ID to job ID. -/
def pid2jid (sh : Shell) (pid : Int) : Int :=
  if pid < 1 then 0
  else
    match firstSlot (fun j => j.pid == pid) sh.jobs with
    | some (_, job) => job.jid
    | none => 0

/-- Function `updateJobState`: `job = getjobpid(jobs, pid); job->state = state;`
and, for `BG`, the announcement. `none` when `getjobpid` returned `NULL`, which
the code dereferences. -/
def updateJobState (sh : Shell) (pid state : Int) : Option (Shell × List Event) :=
  match getjobpid sh.jobs pid with
  | none => none
  | some (i, job) =>
    some ({ sh with jobs := sh.jobs.set i { job with state := state } },
      Event.write i ::
        (if state == BG then
          [Event.printf "[%d] (%d) %s" [.int job.jid, .int job.pid, .str job.cmdline]]
         else []))

/-! ## The C library's `atoi` -/

/-- The C library's `isspace` in the "C" locale. -/
def isspace (c : Char) : Bool :=
  c == ' ' || c == '\t' || c == '\n' || c == '\x0b' || c == '\x0c' || c == '\r'

/-- The digits loop of `atoi`: the exact value of the longest prefix of
decimal digits, continuing from `acc`. The value is not cut down to the width
of an `int`; see `FitsInt`. -/
def atoiDigits (acc : Int) : List Char → Int
  | [] => acc
  | c :: cs =>
    if c.isDigit then atoiDigits (acc * 10 + ((c.toNat : Int) - 48)) cs else acc

/-- The C library's `atoi` on a NUL-terminated string, given as the characters
before the NUL: leading white space, an optional sign, then the longest run of
decimal digits; 0 when there is no digit. This is the exact value of the text.
It is the value the library returns, and the value `do_bgfg` holds in its
`pid_t`, exactly when it fits a 32-bit `int` (`FitsInt`); for a text whose
value does not fit, the library returns some other `int`, which is not
modelled. -/
def atoi (s : List Char) : Int :=
  match s.dropWhile isspace with
  | '-' :: cs => - atoiDigits 0 cs
  | '+' :: cs => atoiDigits 0 cs
  | cs => atoiDigits 0 cs

/-- The constant `INT_MIN` of a 32-bit `int`. -/
def INT_MIN : Int := -2147483648

/-- The constant `INT_MAX` of a 32-bit `int`. -/
def INT_MAX : Int := 2147483647

/-- The value fits the 32-bit `int` (and `pid_t`) in which the code keeps the
result of `atoi`. -/
def FitsInt (v : Int) : Prop :=
  INT_MIN ≤ v ∧ v ≤ INT_MAX

/-! ## The launcher's registration (`eval`) -/

/-- The parent's side of the loop `for (int i = 0; i < numCmds; i++)` of
`eval`, over the pids `fork` returned, in order: `if (i == 0) groupPid =
childPID; mostRecentChildPid = childPID;`. The two locals start
uninitialised, so their starting values are parameters. Returns
`(groupPid, mostRecentChildPid)`. -/
def evalParentLoop (i : Nat) (groupPid mostRecentChildPid : Int) : List Int → Int × Int
  | [] => (groupPid, mostRecentChildPid)
  | childPID :: rest =>
    evalParentLoop (i + 1) (if i == 0 then childPID else groupPid) childPID rest

/-- The end of `eval`, after the loop: `addjob`, the background announcement
and `waitfg`. `none` when `getjobpid(jobs, groupPid)` returned `NULL`, which
`job->jid` dereferences. -/
def evalRegister (sh : Shell) (runInBg : Bool) (mostRecentChildPid groupPid : Int)
    (cmdline : String) : Option (Shell × List Event) :=
  let state : Int := if runInBg then BG else FG
  let r := addjob sh mostRecentChildPid groupPid state cmdline
  let sh1 := r.1
  let t1 := r.2.2
  if state == BG then
    match getjobpid sh1.jobs groupPid with
    | none => none
    | some (_, job) =>
      some (sh1, t1 ++ [Event.printf "[%d] (%d) %s\n" [.int job.jid, .int groupPid, .str cmdline],
                        Event.waitfg mostRecentChildPid])
  else
    some (sh1, t1 ++ [Event.waitfg mostRecentChildPid])

/-- The parent's side of `eval` for a command that is not a builtin and whose
`numCmds >= 1` children were all created: `pids` are the child pids in order
of creation, `g0` and `m0` the indeterminate starting values of `groupPid` and
`mostRecentChildPid`. -/
def evalLaunch (sh : Shell) (runInBg : Bool) (pids : List Int) (cmdline : String)
    (g0 m0 : Int) : Option (Shell × List Event) :=
  let gm := evalParentLoop 0 g0 m0 pids
  evalRegister sh runInBg gm.2 gm.1 cmdline

/-! ## `do_bgfg` -/

/-- The local `state` of `do_bgfg`: `FG` for "fg", `BG` for "bg", else its
initial 0. -/
def bgfgState (cmd : String) : Int :=
  if cmd == "fg" then FG else if cmd == "bg" then BG else 0

/-- The part of `do_bgfg` that turns a non-`NULL` `argv[1]` into a job id:
`%n` is the job id `atoi` reads after the marker, anything else a pid that
`pid2jid` maps. An error is the message printed before the early `return`. -/
def bgfgResolve (sh : Shell) (cmd : String) (a : String) : Except (List Event) Int :=
  if a.data.head? == some '%' then
    let jid := atoi a.data.tail
    if jid == 0 then
      .error [Event.printf "%s: argument must be a PID or %%job id\n" [.str cmd]]
    else .ok jid
  else
    let pid := atoi a.data
    if pid == 0 then
      .error [Event.printf "%s: argument must be a PID or %%job id\n" [.str cmd]]
    else
      let jid := pid2jid sh pid
      if jid == 0 then .error [Event.printf "(%d): No such process\n" [.int pid]]
      else .ok jid

/-- Function `do_bgfg`: execute the builtin bg and fg commands. `cmd` is
`argv[0]`, `arg` is `argv[1]` (`none` for `NULL`). `none` when
`updateJobState` dereferences `NULL`. -/
def do_bgfg (sh : Shell) (cmd : String) (arg : Option String) : Option (Shell × List Event) :=
  let state : Int := bgfgState cmd
  match arg with
  | none => some (sh, [Event.printf "%s command requires PID or %%job id argument\n" [.str cmd]])
  | some a =>
    match bgfgResolve sh cmd a with
    | .error t => some (sh, t)
    | .ok jid =>
      match getjobjid sh.jobs jid with
      | none => some (sh, [Event.printf "%%%d: No such job\n" [.int jid]])
      | some (_, job) =>
        let t1 := if job.state == ST then [Event.kill (-1 * job.pid) Sig.SIGCONT] else []
        match updateJobState sh job.pid state with
        | none => none
        | some (sh2, t2) =>
          some (sh2, t1 ++ t2 ++ (if state == FG then [Event.waitfg job.pid] else []))

/-- The loop condition of `waitfg(pid)`: the main loop stays in `waitfg`
while `fgpid(jobs) == pid`. -/
def waitfgBlocked (sh : Shell) (pid : Int) : Bool :=
  fgpid sh.jobs == pid

/-! ## Signal handlers -/

/-- One iteration of the `while` loop of `sigchld_handler`, for the pid and
status `waitpid` returned (the loop runs it only for `child_pid > 0`). `none`
when `updateJobState` dereferences `NULL`. -/
def sigchldIter (sh : Shell) (child_pid : Int) (status : WStatus) :
    Option (Shell × List Event) :=
  let jid := pid2jid sh child_pid
  if child_pid > 0 then
    let r1 : Option (Shell × List Event) :=
      if WIFEXITED status then some (sh, [])
      else if WIFSIGNALED status then
        some (sh, [Event.printf "Job [%d] (%d) terminated by signal %d\n"
          [.int jid, .int child_pid, .int (WTERMSIG status)]])
      else if WIFSTOPPED status then
        match updateJobState sh child_pid ST with
        | none => none
        | some (sh1, t) =>
          some (sh1, Event.printf "Job [%d] (%d) stopped by signal %d\n"
            [.int jid, .int child_pid, .int (WSTOPSIG status)] :: t)
      else some (sh, [])
    match r1 with
    | none => none
    | some (sh1, t1) =>
      if !WIFSTOPPED status && !WIFCONTINUED status then
        let r2 := deletejob sh1 child_pid
        some (r2.1, t1 ++ r2.2.2)
      else some (sh1, t1)
  else some (sh, [])

/-- Function `sigchld_handler`: the loop `while ((child_pid = waitpid(...)) > 0)`
over what the successive `waitpid` calls return; it ends at the first result
that is not positive. -/
def sigchld_handler (sh : Shell) : List (Int × WStatus) → Option (Shell × List Event)
  | [] => some (sh, [])
  | (child_pid, status) :: rest =>
    if child_pid > 0 then
      match sigchldIter sh child_pid status with
      | none => none
      | some (sh1, t1) =>
        match sigchld_handler sh1 rest with
        | none => none
        | some (sh2, t2) => some (sh2, t1 ++ t2)
    else some (sh, [])

/-- Function `sigint_handler`: catch SIGINT and send it along to the
foreground job. -/
def sigint_handler (sh : Shell) : Shell × List Event :=
  let fgPid := fgpid sh.jobs
  (sh, (if fgPid > 0 then [Event.kill (-fgPid) Sig.SIGINT] else []) ++ [Event.printf "\n" []])

/-- Function `sigtstp_handler`: catch SIGTSTP and suspend the foreground job
by sending it a SIGTSTP. -/
def sigtstp_handler (sh : Shell) : Shell × List Event :=
  let fgPid := fgpid sh.jobs
  (sh, (if fgPid > 0 then [Event.kill (-fgPid) Sig.SIGTSTP] else []) ++ [Event.printf "\n" []])

/-! ## Call sequences and supervisor steps -/

/-- A call of one of the two job-table mutators. -/
inductive JobOp where
  | add (pid pgid state : Int) (cmdline : String)
  | del (pid : Int)
  deriving DecidableEq, Repr

/-- The globals after one call. -/
def applyOp (sh : Shell) : JobOp → Shell
  | .add pid pgid state cmdline => (addjob sh pid pgid state cmdline).1
  | .del pid => (deletejob sh pid).1

/-- The globals after a sequence of calls, first call first. -/
def runOps (sh : Shell) (ops : List JobOp) : Shell :=
  ops.foldl applyOp sh

/-- No two non-Empty slots (`pid != 0`) at different indices have the same
`jid`. -/
def UniqueJids (jobs : List job_t) : Prop :=
  ∀ (i k : Nat) (a b : job_t), jobs[i]? = some a → jobs[k]? = some b →
    a.pid ≠ 0 → b.pid ≠ 0 → a.jid = b.jid → i = k

/-- Slot `i` holds `j`, `j` satisfies `p`, and no earlier slot does. -/
def IsFirst (p : job_t → Bool) (jobs : List job_t) (i : Nat) (j : job_t) : Prop :=
  jobs[i]? = some j ∧ p j = true ∧
    ∀ (k : Nat) (x : job_t), k < i → jobs[k]? = some x → p x = false

/-- Fifteen launches, pids 101 to 115, on the fresh table. -/
def fifteenAdds : List JobOp :=
  (List.range 15).map fun n => JobOp.add (101 + (n : Int)) (101 + (n : Int)) BG "sleep 9 &\n"

/-- Fifteen launches, the second job ends, two more launches. -/
def reuseOps : List JobOp :=
  fifteenAdds ++
    [JobOp.del 102,
     JobOp.add 116 116 BG "sleep 9 &\n",
     JobOp.add 117 117 BG "sleep 9 &\n"]

/-- The number of slots with state `FG`. -/
def countFG (jobs : List job_t) : Nat :=
  (jobs.filter fun j => j.state == FG).length

/-- The supervisor between two steps: the globals, and the pid the main loop
passed to its last `waitfg` call (`none` before the first). -/
structure Sup where
  sh : Shell
  waited : Option Int
  deriving DecidableEq, Repr

/-- The main loop is still inside `waitfg`: the pid it waits on is
`fgpid(jobs)`. -/
def blocked (s : Sup) : Bool :=
  match s.waited with
  | some pid => waitfgBlocked s.sh pid
  | none => false

/-- The pid of the last `waitfg` call after a trace, given the one before. -/
def waitedAfter (w : Option Int) : List Event → Option Int
  | [] => w
  | Event.waitfg pid :: t => waitedAfter (some pid) t
  | _ :: t => waitedAfter w t

/-- One supervisor step. A launch and a bg/fg command are taken by the main
loop, so only when it is not blocked in `waitfg`; a reaper event (one
iteration of the `sigchld_handler` loop) can come at any time. A step whose
code dereferences `NULL` has no successor. -/
inductive Step : Sup → Sup → Prop where
  | launch (s : Sup) (runInBg : Bool) (pids : List Int) (cmdline : String) (g0 m0 : Int)
      (sh2 : Shell) (t : List Event) :
      blocked s = false → pids ≠ [] →
      evalLaunch s.sh runInBg pids cmdline g0 m0 = some (sh2, t) →
      Step s { sh := sh2, waited := waitedAfter s.waited t }
  | bgfg (s : Sup) (cmd : String) (arg : Option String) (sh2 : Shell) (t : List Event) :
      blocked s = false →
      do_bgfg s.sh cmd arg = some (sh2, t) →
      Step s { sh := sh2, waited := waitedAfter s.waited t }
  | reap (s : Sup) (pid : Int) (status : WStatus) (sh2 : Shell) (t : List Event) :
      0 < pid →
      sigchldIter s.sh pid status = some (sh2, t) →
      Step s { sh := sh2, waited := s.waited }

/-- The supervisor states reachable from the initialized table. -/
inductive Reachable : Sup → Prop where
  | init (verbose : Bool) : Reachable { sh := initShell verbose, waited := none }
  | step {s s2 : Sup} : Reachable s → Step s s2 → Reachable s2

/-- The invariant behind at-most-one-foreground: at most one slot is `FG`, and
an `FG` slot carries the pid the main loop is waiting on. -/
def FgInv (w : Option Int) (jobs : List job_t) : Prop :=
  countFG jobs ≤ 1 ∧ ∀ j ∈ jobs, j.state = FG → w = some j.pid

/-- No two non-Empty slots at different indices have the same `pid`. -/
def UniquePids (jobs : List job_t) : Prop :=
  ∀ (i k : Nat) (a b : job_t), jobs[i]? = some a → jobs[k]? = some b →
    a.pid ≠ 0 → b.pid ≠ 0 → a.pid = b.pid → i = k

/-- The shape `clearjob` and `addjob` give every slot: an Empty slot
(`pid == 0`) has `jid` 0, a live slot has `pid >= 1` and `jid >= 1`. -/
def Tidy (jobs : List job_t) : Prop :=
  ∀ j ∈ jobs, (j.pid = 0 → j.jid = 0) ∧ (j.pid ≠ 0 → 1 ≤ j.pid ∧ 1 ≤ j.jid)

/-- The table after `sleep 5` was launched in the foreground on the fresh
table as pid 5. -/
def shFg5 : Shell :=
  (addjob (initShell false) 5 5 FG "sleep 5\n").1

/-- The job of `shFg5`, in state `st`. -/
def job5 (st : Int) : job_t :=
  { pid := 5, pgid := 5, jid := 1, state := st, cmdline := "sleep 5\n" }

/-- The table `shFg5` with job 1 in state `st`. -/
def shJob5 (st : Int) : Shell :=
  { shFg5 with jobs := shFg5.jobs.set 0 (job5 st) }

/-- Sixteen live jobs, pids 101 to 116: no Empty slot. -/
def fullShell : Shell :=
  runOps (initShell false) (fifteenAdds ++ [JobOp.add 116 116 BG "sleep 9 &\n"])

/-- The table after the two-stage pipeline `ls | wc` was launched in the
foreground on the fresh table, the stages being pids 5 and 6: the job has
`pid` 6 and `pgid` 5. -/
def shPipe : Shell :=
  (addjob (initShell false) 6 5 FG "ls | wc\n").1

/-- The states a job can be in: `FG`, `BG` or `ST` (`UNDEF` marks a slot
that holds no job). -/
def IsJobState (state : Int) : Prop :=
  state = FG ∨ state = BG ∨ state = ST

/-- One call that changes the job table: `addjob` or `updateJobState` with a
job state, or `deletejob`. An `updateJobState` call is on a live pid, so that
`getjobpid` finds the slot it stores into. -/
inductive TableStep : Shell → Shell → Prop where
  | add (sh : Shell) (pid pgid state : Int) (cmdline : String) :
      IsJobState state → TableStep sh (addjob sh pid pgid state cmdline).1
  | del (sh : Shell) (pid : Int) : TableStep sh (deletejob sh pid).1
  | upd (sh : Shell) (pid state : Int) (sh2 : Shell) (t : List Event) :
      IsJobState state → updateJobState sh pid state = some (sh2, t) → TableStep sh sh2

/-- The tables reachable from the initialized table (`nextjid` 1) by such
calls. -/
inductive TableReachable : Shell → Prop where
  | init (verbose : Bool) : TableReachable (initShell verbose)
  | step {sh sh2 : Shell} : TableReachable sh → TableStep sh sh2 → TableReachable sh2

/-- Every live slot holds a job state: its state is not `UNDEF`. -/
def LiveStates (jobs : List job_t) : Prop :=
  ∀ j ∈ jobs, j.pid ≠ 0 → j.state ≠ UNDEF

/-- The table after `sleep 5` (pid 5, foreground) and `sleep 6 &` (pid 6,
background) were registered on the fresh table: jobs 1 and 2. -/
def shTwo : Shell :=
  runOps (initShell false)
    [JobOp.add 5 5 FG "sleep 5\n", JobOp.add 6 6 BG "sleep 6 &\n"]

/-! ## Facts about the slot search -/

theorem firstSlot_eq_none {p : job_t → Bool} {jobs : List job_t} :
    firstSlot p jobs = none ↔ ∀ x ∈ jobs, p x = false := by
  induction jobs with
  | nil => simp [firstSlot]
  | cons j js ih =>
    by_cases hp : p j = true
    · simp [firstSlot, hp]
    · cases hfs : firstSlot p js with
      | none =>
        have := ih.mp hfs
        simp [firstSlot, hp, hfs]
        exact this
      | some r =>
        obtain ⟨i, x⟩ := r
        simp only [firstSlot, hp, hfs]
        simp only [Bool.false_eq_true, if_false, List.mem_cons, forall_eq_or_imp, false_iff,
          not_and, reduceCtorEq]
        intro _ hall
        rw [ih.mpr hall] at hfs
        cases hfs

theorem firstSlot_isFirst {p : job_t → Bool} {jobs : List job_t} {i : Nat} {j : job_t}
    (h : firstSlot p jobs = some (i, j)) : IsFirst p jobs i j := by
  induction jobs generalizing i with
  | nil => simp [firstSlot] at h
  | cons y ys ih =>
    by_cases hp : p y = true
    · simp [firstSlot, hp] at h
      obtain ⟨rfl, rfl⟩ := h
      exact ⟨by simp, hp, by intro k x hk; omega⟩
    · cases hfs : firstSlot p ys with
      | none => simp [firstSlot, hp, hfs] at h
      | some r =>
        obtain ⟨i0, x0⟩ := r
        simp [firstSlot, hp, hfs] at h
        obtain ⟨rfl, rfl⟩ := h
        obtain ⟨h1, h2, h3⟩ := ih hfs
        refine ⟨by simpa using h1, h2, ?_⟩
        intro k x hk hx
        cases k with
        | zero =>
          simp at hx
          subst hx
          simpa using hp
        | succ k =>
          simp at hx
          exact h3 k x (by omega) hx

theorem isFirst_firstSlot {p : job_t → Bool} {jobs : List job_t} {i : Nat} {j : job_t}
    (h : IsFirst p jobs i j) : firstSlot p jobs = some (i, j) := by
  induction jobs generalizing i with
  | nil =>
    obtain ⟨h1, _, _⟩ := h
    simp at h1
  | cons y ys ih =>
    obtain ⟨h1, h2, h3⟩ := h
    cases i with
    | zero =>
      simp at h1
      subst h1
      simp [firstSlot, h2]
    | succ i =>
      have hy : p y = false := h3 0 y (by omega) (by simp)
      have hrec : firstSlot p ys = some (i, j) := by
        apply ih
        refine ⟨by simpa using h1, h2, ?_⟩
        intro k x hk hx
        exact h3 (k + 1) x (by omega) (by simpa using hx)
      simp [firstSlot, hy, hrec]

/-! ## The foreground invariant -/

theorem countFG_eq_zero {jobs : List job_t} :
    countFG jobs = 0 ↔ ∀ j ∈ jobs, j.state ≠ FG := by
  simp [countFG, List.filter_eq_nil_iff]

theorem countFG_cons (y : job_t) (ys : List job_t) :
    countFG (y :: ys) = (if y.state = FG then 1 else 0) + countFG ys := by
  by_cases h : y.state = FG
  · simp [countFG, List.filter_cons, h]; omega
  · simp [countFG, List.filter_cons, h]

theorem countFG_set_le (jobs : List job_t) (i : Nat) (x : job_t) :
    countFG (jobs.set i x) ≤ countFG jobs + 1 := by
  induction jobs generalizing i with
  | nil => simp [countFG]
  | cons y ys ih =>
    cases i with
    | zero =>
      simp only [List.set_cons_zero, countFG_cons]
      split <;> split <;> omega
    | succ i =>
      have := ih i
      simp only [List.set_cons_succ, countFG_cons]
      omega

theorem countFG_set_of_ne (jobs : List job_t) (i : Nat) (x : job_t) (hx : x.state ≠ FG) :
    countFG (jobs.set i x) ≤ countFG jobs := by
  induction jobs generalizing i with
  | nil => simp [countFG]
  | cons y ys ih =>
    cases i with
    | zero =>
      simp only [List.set_cons_zero, countFG_cons, hx, if_false]
      omega
    | succ i =>
      have := ih i
      simp only [List.set_cons_succ, countFG_cons]
      omega

theorem fgInv_of_noFG (w : Option Int) {jobs : List job_t} (h : ∀ j ∈ jobs, j.state ≠ FG) :
    FgInv w jobs :=
  ⟨by rw [countFG_eq_zero.mpr h]; omega, fun j hj hfg => absurd hfg (h j hj)⟩

theorem fgInv_set_of_ne {w : Option Int} {jobs : List job_t} (h : FgInv w jobs) (i : Nat)
    (x : job_t) (hx : x.state ≠ FG) : FgInv w (jobs.set i x) := by
  refine ⟨le_trans (countFG_set_of_ne jobs i x hx) h.1, ?_⟩
  intro j hj hfg
  rcases List.mem_or_eq_of_mem_set hj with hm | rfl
  · exact h.2 j hm hfg
  · exact absurd hfg hx

theorem fgInv_set_fresh {jobs : List job_t} (h : ∀ j ∈ jobs, j.state ≠ FG) (i : Nat)
    (x : job_t) : FgInv (some x.pid) (jobs.set i x) := by
  refine ⟨?_, ?_⟩
  · have := countFG_set_le jobs i x
    rw [countFG_eq_zero.mpr h] at this
    omega
  · intro j hj hfg
    rcases List.mem_or_eq_of_mem_set hj with hm | rfl
    · exact absurd hfg (h j hm)
    · rfl

theorem noFG_of_not_blocked {s : Sup} (hinv : FgInv s.waited s.sh.jobs)
    (hb : blocked s = false) : ∀ j ∈ s.sh.jobs, j.state ≠ FG := by
  intro j hj hfg
  cases hfs : firstSlot (fun j => j.state == FG) s.sh.jobs with
  | none =>
    have := firstSlot_eq_none.mp hfs j hj
    simp [hfg] at this
  | some r =>
    obtain ⟨i, x⟩ := r
    have hfirst := firstSlot_isFirst hfs
    have hx : x.state = FG := by simpa using hfirst.2.1
    have hw := hinv.2 x (List.getElem?_mem hfirst.1) hx
    simp [blocked, hw, waitfgBlocked, fgpid, hfs] at hb

theorem waitedAfter_append (w : Option Int) (t1 t2 : List Event) :
    waitedAfter w (t1 ++ t2) = waitedAfter (waitedAfter w t1) t2 := by
  induction t1 generalizing w with
  | nil => rfl
  | cons e t ih => cases e <;> simp [waitedAfter, ih]

theorem addjob_jobs (sh : Shell) (pid pgid state : Int) (cmdline : String) :
    (addjob sh pid pgid state cmdline).1.jobs = sh.jobs ∨
    ∃ i : Nat, (addjob sh pid pgid state cmdline).1.jobs =
      sh.jobs.set i { pid := pid, pgid := pgid, jid := sh.nextjid, state := state,
                      cmdline := cmdline } := by
  unfold addjob
  split
  · left; rfl
  · split
    · right; exact ⟨_, rfl⟩
    · left; rfl

theorem addjob_waitedAfter (w : Option Int) (sh : Shell) (pid pgid state : Int)
    (cmdline : String) : waitedAfter w (addjob sh pid pgid state cmdline).2.2 = w := by
  unfold addjob
  split
  · rfl
  · split
    · cases sh.verbose <;> simp [waitedAfter]
    · simp [waitedAfter]

theorem evalParentLoop_snd (i : Nat) (g m : Int) (pids : List Int) (h : pids ≠ []) :
    (evalParentLoop i g m pids).2 = pids.getLast h := by
  induction pids generalizing i g m with
  | nil => exact absurd rfl h
  | cons p ps ih =>
    cases ps with
    | nil => simp [evalParentLoop]
    | cons q qs =>
      rw [evalParentLoop, ih _ _ _ (by simp)]
      simp

theorem evalParentLoop_fst (g m : Int) (p : Int) (ps : List Int) :
    (evalParentLoop 0 g m (p :: ps)).1 = p := by
  have aux : ∀ (qs : List Int) (i : Nat) (g m : Int), (evalParentLoop (i + 1) g m qs).1 = g := by
    intro qs
    induction qs with
    | nil => intro i g m; rfl
    | cons q qs ih => intro i g m; rw [evalParentLoop]; simp [ih]
  rw [evalParentLoop]
  simp [aux]

theorem updateJobState_some {sh sh2 : Shell} {pid state : Int} {t : List Event}
    (h : updateJobState sh pid state = some (sh2, t)) :
    ∃ (i : Nat) (job : job_t), IsFirst (fun j => j.pid == pid) sh.jobs i job ∧ 1 ≤ pid ∧
      sh2 = { sh with jobs := sh.jobs.set i { job with state := state } } ∧
      t = Event.write i ::
        (if state == BG then
          [Event.printf "[%d] (%d) %s" [.int job.jid, .int job.pid, .str job.cmdline]]
         else []) := by
  unfold updateJobState at h
  split at h
  · cases h
  · rename_i i job hg
    simp only [Option.some.injEq, Prod.mk.injEq] at h
    unfold getjobpid at hg
    split at hg
    · cases hg
    · rename_i hp
      exact ⟨i, job, firstSlot_isFirst hg, by omega, h.1.symm, h.2.symm⟩

theorem evalRegister_some {sh sh2 : Shell} {runInBg : Bool} {m g : Int} {cmdline : String}
    {t : List Event} (h : evalRegister sh runInBg m g cmdline = some (sh2, t)) (w : Option Int) :
    sh2 = (addjob sh m g (if runInBg then BG else FG) cmdline).1 ∧
      waitedAfter w t = some m := by
  cases runInBg with
  | true =>
    simp only [evalRegister, if_true] at h
    have hb : (BG == BG) = true := by decide
    simp only [hb, if_true] at h
    split at h
    · cases h
    · simp only [Option.some.injEq, Prod.mk.injEq] at h
      obtain ⟨rfl, rfl⟩ := h
      refine ⟨rfl, ?_⟩
      rw [waitedAfter_append, addjob_waitedAfter]
      simp [waitedAfter]
  | false =>
    simp only [evalRegister] at h
    have hb : (FG == BG) = false := by decide
    simp only [Bool.false_eq_true, if_false, hb] at h
    simp only [Option.some.injEq, Prod.mk.injEq] at h
    obtain ⟨rfl, rfl⟩ := h
    refine ⟨rfl, ?_⟩
    rw [waitedAfter_append, addjob_waitedAfter]
    simp [waitedAfter]

theorem bgfgResolve_error {sh : Shell} {cmd a : String} {t : List Event}
    (h : bgfgResolve sh cmd a = .error t) : ∃ fmt args, t = [Event.printf fmt args] := by
  unfold bgfgResolve at h
  simp only at h
  split at h
  · split at h
    · cases h; exact ⟨_, _, rfl⟩
    · cases h
  · split at h
    · cases h; exact ⟨_, _, rfl⟩
    · split at h
      · cases h; exact ⟨_, _, rfl⟩
      · cases h

theorem do_bgfg_some {sh sh2 : Shell} {cmd : String} {arg : Option String} {t : List Event}
    (h : do_bgfg sh cmd arg = some (sh2, t)) :
    (sh2 = sh ∧ ∃ fmt args, t = [Event.printf fmt args]) ∨
    ∃ (a : String) (jid : Int) (i : Nat) (job : job_t) (t2 : List Event),
      arg = some a ∧ bgfgResolve sh cmd a = .ok jid ∧
      getjobjid sh.jobs jid = some (i, job) ∧
      updateJobState sh job.pid (bgfgState cmd) = some (sh2, t2) ∧
      t = (if job.state == ST then [Event.kill (-1 * job.pid) Sig.SIGCONT] else []) ++ t2 ++
            (if bgfgState cmd == FG then [Event.waitfg job.pid] else []) := by
  unfold do_bgfg at h
  simp only at h
  cases arg with
  | none =>
    simp only [Option.some.injEq, Prod.mk.injEq] at h
    obtain ⟨rfl, rfl⟩ := h
    exact Or.inl ⟨rfl, _, _, rfl⟩
  | some a =>
    simp only at h
    cases hr : bgfgResolve sh cmd a with
    | error e =>
      rw [hr] at h
      simp only [Option.some.injEq, Prod.mk.injEq] at h
      obtain ⟨rfl, rfl⟩ := h
      exact Or.inl ⟨rfl, bgfgResolve_error hr⟩
    | ok jid =>
      rw [hr] at h
      simp only at h
      cases hg : getjobjid sh.jobs jid with
      | none =>
        rw [hg] at h
        simp only [Option.some.injEq, Prod.mk.injEq] at h
        obtain ⟨rfl, rfl⟩ := h
        exact Or.inl ⟨rfl, _, _, rfl⟩
      | some r =>
        obtain ⟨i, job⟩ := r
        rw [hg] at h
        simp only at h
        cases hu : updateJobState sh job.pid (bgfgState cmd) with
        | none => rw [hu] at h; cases h
        | some r2 =>
          obtain ⟨sh3, t2⟩ := r2
          rw [hu] at h
          simp only [Option.some.injEq, Prod.mk.injEq] at h
          obtain ⟨rfl, rfl⟩ := h
          exact Or.inr ⟨a, jid, i, job, t2, rfl, hr, hg, hu, rfl⟩


theorem deletejob_jobs (sh : Shell) (pid : Int) :
    (deletejob sh pid).1.jobs = sh.jobs ∨
    ∃ (i : Nat) (job : job_t), (deletejob sh pid).1.jobs = sh.jobs.set i (clearjob job) := by
  unfold deletejob
  split
  · left; rfl
  · split
    · right; exact ⟨_, _, rfl⟩
    · left; rfl

theorem sigchldIter_jobs {sh sh2 : Shell} {pid : Int} {status : WStatus} {t : List Event}
    (h : sigchldIter sh pid status = some (sh2, t)) :
    sh2.jobs = sh.jobs ∨ ∃ (i : Nat) (x : job_t), x.state ≠ FG ∧ sh2.jobs = sh.jobs.set i x := by
  unfold sigchldIter at h
  simp only at h
  split at h
  · cases status with
    | exited c =>
      simp [WIFEXITED, WIFSTOPPED, WIFCONTINUED] at h
      obtain ⟨rfl, -⟩ := h
      rcases deletejob_jobs sh pid with hd | ⟨i, job, hd⟩
      · exact Or.inl hd
      · exact Or.inr ⟨i, clearjob job, by simp [clearjob, UNDEF, FG], hd⟩
    | signaled n =>
      simp [WIFEXITED, WIFSIGNALED, WIFSTOPPED, WIFCONTINUED] at h
      obtain ⟨rfl, -⟩ := h
      rcases deletejob_jobs sh pid with hd | ⟨i, job, hd⟩
      · exact Or.inl hd
      · exact Or.inr ⟨i, clearjob job, by simp [clearjob, UNDEF, FG], hd⟩
    | stopped n =>
      simp only [WIFEXITED, WIFSIGNALED, WIFSTOPPED, WIFCONTINUED] at h
      cases hu : updateJobState sh pid ST with
      | none => simp [hu] at h
      | some r =>
        obtain ⟨sh3, t3⟩ := r
        simp [hu] at h
        obtain ⟨rfl, -⟩ := h
        obtain ⟨i, job, -, -, rfl, -⟩ := updateJobState_some hu
        exact Or.inr ⟨i, _, by simp [ST, FG], rfl⟩
    | continued =>
      simp [WIFEXITED, WIFSIGNALED, WIFSTOPPED, WIFCONTINUED] at h
      obtain ⟨rfl, -⟩ := h
      exact Or.inl rfl
  · simp only [Option.some.injEq, Prod.mk.injEq] at h
    obtain ⟨rfl, -⟩ := h
    exact Or.inl rfl

theorem step_fgInv {s s2 : Sup} (hinv : FgInv s.waited s.sh.jobs) (hstep : Step s s2) :
    FgInv s2.waited s2.sh.jobs := by
  cases hstep with
  | launch runInBg pids cmdline g0 m0 sh2 t hb hne he =>
    have hno := noFG_of_not_blocked hinv hb
    obtain ⟨rfl, hw⟩ := evalRegister_some he s.waited
    simp only [hw]
    rcases addjob_jobs s.sh (evalParentLoop 0 g0 m0 pids).2 (evalParentLoop 0 g0 m0 pids).1
        (if runInBg = true then BG else FG) cmdline with h | ⟨i, h⟩
    · rw [h]; exact fgInv_of_noFG _ hno
    · rw [h]
      exact fgInv_set_fresh hno i _
  | bgfg cmd arg sh2 t hb he =>
    have hno := noFG_of_not_blocked hinv hb
    rcases do_bgfg_some he with ⟨rfl, fmt, args, rfl⟩ | ⟨a, jid, i, job, t2, -, -, -, hu, rfl⟩
    · exact fgInv_of_noFG _ hno
    · obtain ⟨k, job2, hfirst, _, rfl, rfl⟩ := updateJobState_some hu
      have hpid : job2.pid = job.pid := by simpa using hfirst.2.1
      by_cases hfg : bgfgState cmd = FG
      · have hw : waitedAfter s.waited
            ((if job.state == ST then [Event.kill (-1 * job.pid) Sig.SIGCONT] else []) ++
              (Event.write k ::
                (if bgfgState cmd == BG then
                  [Event.printf "[%d] (%d) %s"
                    [.int job2.jid, .int job2.pid, .str job2.cmdline]]
                 else [])) ++
              (if bgfgState cmd == FG then [Event.waitfg job.pid] else [])) =
            some job.pid := by
          rw [waitedAfter_append]
          simp [hfg, waitedAfter]
        simp only [hw]
        have := fgInv_set_fresh hno k { job2 with state := bgfgState cmd }
        simpa [hpid] using this
      · apply fgInv_of_noFG
        intro j hj
        rcases List.mem_or_eq_of_mem_set hj with hm | rfl
        · exact hno j hm
        · exact hfg
  | reap pid status sh2 t hpos he =>
    simp only
    rcases sigchldIter_jobs he with h | ⟨i, x, hx, h⟩
    · rw [h]; exact hinv
    · rw [h]; exact fgInv_set_of_ne hinv i x hx

theorem reachable_fgInv {s : Sup} (h : Reachable s) : FgInv s.waited s.sh.jobs := by
  induction h with
  | init verbose =>
    apply fgInv_of_noFG
    intro j hj
    simp [initShell, initjobs, zeroJobs] at hj
    obtain ⟨-, rfl⟩ := hj
    simp [clearjob, UNDEF, FG]
  | step _ hstep ih => exact step_fgInv ih hstep

theorem reachable_shFg5 : Reachable { sh := shFg5, waited := some 5 } :=
  Reachable.step (Reachable.init false)
    (Step.launch { sh := initShell false, waited := none } false [5] "sleep 5\n" 0 0 shFg5
      [Event.write 0, Event.waitfg 5] (by decide) (by decide) (by decide))

theorem reachable_shJob5_ST : Reachable { sh := shJob5 ST, waited := some 5 } :=
  Reachable.step reachable_shFg5
    (Step.reap { sh := shFg5, waited := some 5 } 5 (WStatus.stopped 20) (shJob5 ST)
      [Event.printf "Job [%d] (%d) stopped by signal %d\n" [.int 1, .int 5, .int 20],
       Event.write 0]
      (by decide) (by decide))

theorem reachable_shJob5_FG : Reachable { sh := shJob5 FG, waited := some 5 } :=
  Reachable.step reachable_shJob5_ST
    (Step.bgfg { sh := shJob5 ST, waited := some 5 } "fg" (some "%1") (shJob5 FG)
      [Event.kill (-5) Sig.SIGCONT, Event.write 0, Event.waitfg 5]
      (by decide) (by decide))

/-! ## Launcher, reaper and bg/fg: what each call does -/

theorem evalRegister_fg (sh : Shell) (m g : Int) (cmdline : String) :
    evalRegister sh false m g cmdline =
      some ((addjob sh m g FG cmdline).1, (addjob sh m g FG cmdline).2.2 ++ [Event.waitfg m]) := by
  have hb : (FG == BG) = false := by decide
  simp [evalRegister, hb]

theorem evalRegister_bg (sh : Shell) (m g : Int) (cmdline : String) :
    evalRegister sh true m g cmdline =
      match getjobpid (addjob sh m g BG cmdline).1.jobs g with
      | none => none
      | some (_, job) =>
        some ((addjob sh m g BG cmdline).1,
          (addjob sh m g BG cmdline).2.2 ++
            [Event.printf "[%d] (%d) %s\n" [.int job.jid, .int g, .str cmdline],
             Event.waitfg m]) := by
  have hb : (BG == BG) = true := by decide
  simp [evalRegister, hb]

theorem addjob_full {sh : Shell} (hfull : ∀ j ∈ sh.jobs, j.pid ≠ 0) (pid pgid state : Int)
    (cmdline : String) (hpos : 0 < pid) :
    addjob sh pid pgid state cmdline =
      (sh, 0, [Event.printf "Tried to create too many jobs\n" []]) := by
  have hfs : firstSlot (fun j => j.pid == 0) sh.jobs = none :=
    firstSlot_eq_none.mpr (fun x hx => by simpa using hfull x hx)
  have : ¬ pid < 1 := by omega
  simp [addjob, this, hfs]

theorem getjobpid_eq_none {jobs : List job_t} {pid : Int} (h : ∀ j ∈ jobs, j.pid ≠ pid) :
    getjobpid jobs pid = none := by
  unfold getjobpid
  split
  · rfl
  · exact firstSlot_eq_none.mpr (fun x hx => by simpa using h x hx)

theorem evalLaunch_eq (sh : Shell) (runInBg : Bool) (pids : List Int) (cmdline : String)
    (g0 m0 : Int) (hne : pids ≠ []) :
    evalLaunch sh runInBg pids cmdline g0 m0 =
      evalRegister sh runInBg (pids.getLast hne) (pids.head hne) cmdline := by
  unfold evalLaunch
  simp only
  rw [evalParentLoop_snd 0 g0 m0 pids hne]
  cases pids with
  | nil => exact absurd rfl hne
  | cons p ps => rw [evalParentLoop_fst]; rfl

theorem isFirst_set {p : job_t → Bool} {jobs : List job_t} {i : Nat} {e x : job_t}
    (he : jobs[i]? = some e) (hx : p x = true)
    (hbefore : ∀ (k : Nat) (y : job_t), k < i → jobs[k]? = some y → p y = false) :
    IsFirst p (jobs.set i x) i x := by
  have hlt : i < jobs.length := (List.getElem?_eq_some.mp he).1
  refine ⟨by simp [List.getElem?_set, hlt], hx, ?_⟩
  intro k y hk hy
  have hne : i ≠ k := by omega
  rw [List.getElem?_set] at hy
  simp [hne] at hy
  exact hbefore k y hk hy

theorem head_ne_getLast {pids : List Int} (hne : pids ≠ []) (hlen : 2 ≤ pids.length)
    (hnd : pids.Nodup) : pids.head hne ≠ pids.getLast hne := by
  cases pids with
  | nil => exact absurd rfl hne
  | cons p ps =>
    cases ps with
    | nil => simp at hlen
    | cons q qs =>
      simp only [List.head_cons]
      rw [List.getLast_cons (by simp : q :: qs ≠ [])]
      intro h
      have hmem : p ∈ q :: qs := h ▸ List.getLast_mem _
      exact (List.nodup_cons.mp hnd).1 hmem

theorem addjob_room {sh : Shell} {i : Nat} {e : job_t}
    (hfirst : IsFirst (fun j => j.pid == 0) sh.jobs i e) (pid pgid state : Int)
    (cmdline : String) (hpos : 0 < pid) :
    addjob sh pid pgid state cmdline =
      ({ sh with
          jobs := sh.jobs.set i { pid := pid, pgid := pgid, jid := sh.nextjid, state := state,
                                  cmdline := cmdline },
          nextjid := if sh.nextjid + 1 > (MAXJOBS : Int) then 1 else sh.nextjid + 1 },
        1,
        Event.write i ::
          (if sh.verbose then
            [Event.printf "Added job [%d] %d %s\n" [.int sh.nextjid, .int pid, .str cmdline]]
           else [])) := by
  have hfs := isFirst_firstSlot hfirst
  have : ¬ pid < 1 := by omega
  simp [addjob, this, hfs]

theorem pid2jid_of_isFirst {sh : Shell} {pid : Int} {i : Nat} {job : job_t}
    (hfirst : IsFirst (fun j => j.pid == pid) sh.jobs i job) (hpos : 0 < pid) :
    pid2jid sh pid = job.jid := by
  have : ¬ pid < 1 := by omega
  simp [pid2jid, this, isFirst_firstSlot hfirst]

theorem pid2jid_of_absent {sh : Shell} {pid : Int} (h : ∀ j ∈ sh.jobs, j.pid ≠ pid) :
    pid2jid sh pid = 0 := by
  unfold pid2jid
  split
  · rfl
  · rw [firstSlot_eq_none.mpr (fun x hx => by simpa using h x hx)]

theorem updateJobState_of_isFirst {sh : Shell} {pid : Int} {i : Nat} {job : job_t}
    (hfirst : IsFirst (fun j => j.pid == pid) sh.jobs i job) (hpos : 0 < pid) (state : Int) :
    updateJobState sh pid state =
      some ({ sh with jobs := sh.jobs.set i { job with state := state } },
        Event.write i ::
          (if state == BG then
            [Event.printf "[%d] (%d) %s" [.int job.jid, .int job.pid, .str job.cmdline]]
           else [])) := by
  have : ¬ pid < 1 := by omega
  simp [updateJobState, getjobpid, this, isFirst_firstSlot hfirst]

theorem deletejob_of_isFirst {sh : Shell} {pid : Int} {i : Nat} {job : job_t}
    (hfirst : IsFirst (fun j => j.pid == pid) sh.jobs i job) (hpos : 0 < pid) :
    deletejob sh pid =
      ({ sh with jobs := sh.jobs.set i (clearjob job),
                 nextjid := maxjid (sh.jobs.set i (clearjob job)) + 1 }, 1, [Event.write i]) := by
  have : ¬ pid < 1 := by omega
  simp [deletejob, this, isFirst_firstSlot hfirst]

theorem deletejob_of_absent {sh : Shell} {pid : Int} (h : ∀ j ∈ sh.jobs, j.pid ≠ pid) :
    deletejob sh pid = (sh, 0, []) := by
  unfold deletejob
  split
  · rfl
  · rw [firstSlot_eq_none.mpr (fun x hx => by simpa using h x hx)]

theorem sigchldIter_tracked {sh : Shell} {pid : Int} {i : Nat} {job : job_t}
    (hfirst : IsFirst (fun j => j.pid == pid) sh.jobs i job) (hpos : 0 < pid) (c n : Int) :
    sigchldIter sh pid (WStatus.exited c) =
      some ({ sh with jobs := sh.jobs.set i (clearjob job),
                      nextjid := maxjid (sh.jobs.set i (clearjob job)) + 1 },
            [Event.write i]) ∧
    sigchldIter sh pid (WStatus.signaled n) =
      some ({ sh with jobs := sh.jobs.set i (clearjob job),
                      nextjid := maxjid (sh.jobs.set i (clearjob job)) + 1 },
            [Event.printf "Job [%d] (%d) terminated by signal %d\n"
               [.int job.jid, .int pid, .int n],
             Event.write i]) ∧
    sigchldIter sh pid (WStatus.stopped n) =
      some ({ sh with jobs := sh.jobs.set i { job with state := ST } },
            [Event.printf "Job [%d] (%d) stopped by signal %d\n"
               [.int job.jid, .int pid, .int n],
             Event.write i]) := by
  have hjid := pid2jid_of_isFirst hfirst hpos
  have hgt : pid > 0 := hpos
  refine ⟨?_, ?_, ?_⟩
  · simp [sigchldIter, hgt, WIFEXITED, WIFSTOPPED, WIFCONTINUED,
      deletejob_of_isFirst hfirst hpos]
  · simp [sigchldIter, hgt, WIFEXITED, WIFSIGNALED, WIFSTOPPED, WIFCONTINUED, WTERMSIG,
      deletejob_of_isFirst hfirst hpos, hjid]
  · have hst : (ST == BG) = false := by decide
    simp [sigchldIter, hgt, WIFEXITED, WIFSIGNALED, WIFSTOPPED, WSTOPSIG,
      updateJobState_of_isFirst hfirst hpos, hjid, hst]

theorem fgpid_of_isFirst {jobs : List job_t} {i : Nat} {job : job_t}
    (hfirst : IsFirst (fun j => j.state == FG) jobs i job) : fgpid jobs = job.pid := by
  simp [fgpid, isFirst_firstSlot hfirst]

theorem fgpid_of_noFG {jobs : List job_t} (h : ∀ j ∈ jobs, j.state ≠ FG) : fgpid jobs = 0 := by
  unfold fgpid
  rw [firstSlot_eq_none.mpr (fun x hx => by simpa using h x hx)]

theorem getjobjid_eq_none {jobs : List job_t} {jid : Int} (h : ∀ j ∈ jobs, j.jid ≠ jid) :
    getjobjid jobs jid = none := by
  unfold getjobjid
  split
  · rfl
  · exact firstSlot_eq_none.mpr (fun x hx => by simpa using h x hx)

theorem isFirst_of_uniquePids {jobs : List job_t} {i : Nat} {J : job_t}
    (hJ : jobs[i]? = some J) (hlive : J.pid ≠ 0) (hu : UniquePids jobs) :
    IsFirst (fun j => j.pid == J.pid) jobs i J := by
  refine ⟨hJ, by simp, ?_⟩
  intro k x hk hx
  by_contra hp
  have hpx : x.pid = J.pid := by simpa using hp
  have := hu k i x J hx hJ (by rw [hpx]; exact hlive) hlive hpx
  omega

theorem isFirst_of_uniqueJids {jobs : List job_t} {i : Nat} {J : job_t}
    (hJ : jobs[i]? = some J) (hlive : J.pid ≠ 0) (hu : UniqueJids jobs) (htidy : Tidy jobs) :
    IsFirst (fun j => j.jid == J.jid) jobs i J := by
  refine ⟨hJ, by simp, ?_⟩
  intro k x hk hx
  by_contra hp
  have hjx : x.jid = J.jid := by simpa using hp
  have hJjid : 1 ≤ J.jid := ((htidy J (List.getElem?_mem hJ)).2 hlive).2
  have hxlive : x.pid ≠ 0 := by
    intro h0
    have := (htidy x (List.getElem?_mem hx)).1 h0
    omega
  have := hu k i x J hx hJ hxlive hlive hjx
  omega

/-! ## Every reachable table is tidy -/

theorem maxjid_foldl_ge (jobs : List job_t) (init : Int) :
    init ≤ jobs.foldl (fun max j => if j.jid > max then j.jid else max) init := by
  induction jobs generalizing init with
  | nil => simp
  | cons j js ih =>
    simp only [List.foldl_cons]
    split
    · exact le_trans (by omega) (ih j.jid)
    · exact ih init

theorem maxjid_nonneg (jobs : List job_t) : 0 ≤ maxjid jobs :=
  maxjid_foldl_ge jobs 0

theorem tidy_set {jobs : List job_t} (h : Tidy jobs) (i : Nat) (x : job_t)
    (hx : (x.pid = 0 → x.jid = 0) ∧ (x.pid ≠ 0 → 1 ≤ x.pid ∧ 1 ≤ x.jid)) :
    Tidy (jobs.set i x) := by
  intro j hj
  rcases List.mem_or_eq_of_mem_set hj with hm | rfl
  · exact h j hm
  · exact hx

theorem addjob_tidy {sh : Shell} (h : 1 ≤ sh.nextjid ∧ Tidy sh.jobs) (pid pgid state : Int)
    (cmdline : String) :
    1 ≤ (addjob sh pid pgid state cmdline).1.nextjid ∧
      Tidy (addjob sh pid pgid state cmdline).1.jobs := by
  unfold addjob
  split
  · exact h
  · split
    · refine ⟨?_, ?_⟩
      · simp only
        split <;> omega
      · apply tidy_set h.2
        simp only
        refine ⟨fun h0 => by omega, fun _ => ⟨by omega, h.1⟩⟩
    · exact h

theorem deletejob_tidy {sh : Shell} (h : 1 ≤ sh.nextjid ∧ Tidy sh.jobs) (pid : Int) :
    1 ≤ (deletejob sh pid).1.nextjid ∧ Tidy (deletejob sh pid).1.jobs := by
  unfold deletejob
  split
  · exact h
  · split
    · refine ⟨?_, ?_⟩
      · simp only
        have := maxjid_nonneg (sh.jobs.set ‹Nat› (clearjob ‹job_t›))
        omega
      · apply tidy_set h.2
        simp [clearjob]
    · exact h

theorem updateJobState_tidy {sh sh2 : Shell} {pid state : Int} {t : List Event}
    (h : 1 ≤ sh.nextjid ∧ Tidy sh.jobs) (hu : updateJobState sh pid state = some (sh2, t)) :
    1 ≤ sh2.nextjid ∧ Tidy sh2.jobs := by
  obtain ⟨i, job, hfirst, -, rfl, -⟩ := updateJobState_some hu
  refine ⟨h.1, tidy_set h.2 i _ ?_⟩
  exact h.2 job (List.getElem?_mem hfirst.1)

theorem sigchldIter_tidy {sh sh2 : Shell} {pid : Int} {status : WStatus} {t : List Event}
    (h : 1 ≤ sh.nextjid ∧ Tidy sh.jobs) (he : sigchldIter sh pid status = some (sh2, t)) :
    1 ≤ sh2.nextjid ∧ Tidy sh2.jobs := by
  unfold sigchldIter at he
  simp only at he
  split at he
  · cases status with
    | exited c =>
      simp [WIFEXITED, WIFSTOPPED, WIFCONTINUED] at he
      obtain ⟨rfl, -⟩ := he
      exact deletejob_tidy h pid
    | signaled n =>
      simp [WIFEXITED, WIFSIGNALED, WIFSTOPPED, WIFCONTINUED] at he
      obtain ⟨rfl, -⟩ := he
      exact deletejob_tidy h pid
    | stopped n =>
      simp only [WIFEXITED, WIFSIGNALED, WIFSTOPPED, WIFCONTINUED] at he
      cases hu : updateJobState sh pid ST with
      | none => simp [hu] at he
      | some r =>
        obtain ⟨sh3, t3⟩ := r
        simp [hu] at he
        obtain ⟨rfl, -⟩ := he
        exact updateJobState_tidy h hu
    | continued =>
      simp [WIFEXITED, WIFSIGNALED, WIFSTOPPED, WIFCONTINUED] at he
      obtain ⟨rfl, -⟩ := he
      exact h
  · simp only [Option.some.injEq, Prod.mk.injEq] at he
    obtain ⟨rfl, -⟩ := he
    exact h

theorem reachable_tidy {s : Sup} (h : Reachable s) : 1 ≤ s.sh.nextjid ∧ Tidy s.sh.jobs := by
  induction h with
  | init verbose =>
    refine ⟨by simp [initShell], ?_⟩
    intro j hj
    simp [initShell, initjobs, zeroJobs] at hj
    obtain ⟨-, rfl⟩ := hj
    simp [clearjob]
  | step _ hstep ih =>
    cases hstep with
    | launch runInBg pids cmdline g0 m0 sh2 t hb hne he =>
      obtain ⟨rfl, -⟩ := evalRegister_some he none
      exact addjob_tidy ih _ _ _ _
    | bgfg cmd arg sh2 t hb he =>
      rcases do_bgfg_some he with ⟨rfl, -⟩ | ⟨a, jid, i, job, t2, -, -, -, hu, -⟩
      · exact ih
      · exact updateJobState_tidy ih hu
    | reap pid status sh2 t hpos he => exact sigchldIter_tidy ih he

theorem shFg5_jobs :
    shFg5.jobs = job5 FG ::
      List.replicate 15 { pid := 0, pgid := 0, jid := 0, state := 0, cmdline := "" } := by
  decide

theorem shFg5_live {i : Nat} {a : job_t} (h : shFg5.jobs[i]? = some a) (hl : a.pid ≠ 0) :
    i = 0 := by
  rw [shFg5_jobs] at h
  cases i with
  | zero => rfl
  | succ k =>
    exfalso
    simp only [List.getElem?_cons_succ] at h
    rw [List.getElem?_replicate] at h
    split at h
    · cases h; exact hl rfl
    · cases h

/-! ## `atoi` reads back a decimal text -/

theorem digitChar_digit (d : Nat) (h : d < 10) :
    (Nat.digitChar d).isDigit = true ∧ ((Nat.digitChar d).toNat : Int) - 48 = d := by
  interval_cases d <;> exact ⟨by decide, by decide⟩

theorem atoiDigits_toDigitsCore (fuel n : Nat) (ds : List Char) (h : n < fuel) :
    ∃ (c : Char) (rest : List Char), Nat.toDigitsCore 10 fuel n ds = c :: rest ∧
      c.isDigit = true ∧ atoiDigits 0 (c :: rest) = atoiDigits n ds := by
  induction fuel generalizing n ds with
  | zero => omega
  | succ fuel ih =>
    have hd := digitChar_digit (n % 10) (Nat.mod_lt _ (by omega))
    by_cases h0 : n / 10 = 0
    · refine ⟨Nat.digitChar (n % 10), ds, by simp [Nat.toDigitsCore, h0], hd.1, ?_⟩
      have hn : n % 10 = n := Nat.mod_eq_of_lt (by omega)
      rw [hn] at hd
      simp only [atoiDigits, hn, hd.1, if_true]
      rw [show (0 : Int) * 10 + ((n.digitChar.toNat : Int) - 48) = (n : Int) by rw [hd.2]; ring]
    · obtain ⟨c, rest, h1, h2, h3⟩ := ih (n / 10) (Nat.digitChar (n % 10) :: ds) (by omega)
      refine ⟨c, rest, by simp [Nat.toDigitsCore, h0, h1], h2, ?_⟩
      rw [h3]
      simp only [atoiDigits, hd.1, if_true, hd.2]
      congr 1
      have := Nat.div_add_mod n 10
      push_cast
      omega

theorem atoi_of_digit_head (c : Char) (rest : List Char) (hc : c.isDigit = true) :
    atoi (c :: rest) = atoiDigits 0 (c :: rest) := by
  have hsp : isspace c = false := by
    simp only [Char.isDigit, Bool.and_eq_true, decide_eq_true_eq] at hc
    simp only [isspace, Bool.or_eq_false_iff, beq_eq_false_iff_ne, ne_eq]
    refine ⟨⟨⟨⟨⟨?_, ?_⟩, ?_⟩, ?_⟩, ?_⟩, ?_⟩ <;> (rintro rfl; revert hc; decide)
  have hm : c ≠ '-' := by rintro rfl; revert hc; decide
  have hp : c ≠ '+' := by rintro rfl; revert hc; decide
  unfold atoi
  simp only [List.dropWhile, hsp]
  split
  · rename_i heq; cases heq; exact absurd rfl hm
  · rename_i heq; cases heq; exact absurd rfl hp
  · rfl

theorem atoi_repr (n : Nat) : atoi (Nat.repr n).data = n := by
  obtain ⟨c, rest, h1, h2, h3⟩ := atoiDigits_toDigitsCore (n + 1) n [] (by omega)
  have : (Nat.repr n).data = c :: rest := by
    simp [Nat.repr, Nat.toDigits, h1, List.asString]
  rw [this, atoi_of_digit_head c rest h2, h3]
  rfl

theorem decimal_text (n : Int) (h : 0 ≤ n) :
    ∃ (c : Char) (rest : List Char), (toString n).data = c :: rest ∧ c.isDigit = true ∧
      atoi (c :: rest) = n := by
  obtain ⟨k, rfl⟩ := Int.eq_ofNat_of_zero_le h
  obtain ⟨c, rest, h1, h2, h3⟩ := atoiDigits_toDigitsCore (k + 1) k [] (by omega)
  have hdata : (toString (k : Int)).data = c :: rest := by
    show (Int.repr (Int.ofNat k)).data = c :: rest
    simp [Int.repr, Nat.repr, Nat.toDigits, h1, List.asString]
  refine ⟨c, rest, hdata, h2, ?_⟩
  rw [atoi_of_digit_head c rest h2, h3]
  rfl

theorem percent_decimal (n : Int) (h : 0 ≤ n) :
    ("%" ++ toString n).data.head? = some '%' ∧ atoi ("%" ++ toString n).data.tail = n := by
  obtain ⟨c, rest, h1, -, h3⟩ := decimal_text n h
  have : ("%" ++ toString n).data = '%' :: c :: rest := by
    rw [String.data_append, h1]
    rfl
  rw [this]
  exact ⟨rfl, h3⟩

theorem plain_decimal (n : Int) (h : 0 ≤ n) :
    (toString n).data.head? ≠ some '%' ∧ atoi (toString n).data = n := by
  obtain ⟨c, rest, h1, h2, h3⟩ := decimal_text n h
  rw [h1]
  refine ⟨?_, h3⟩
  simp only [List.head?_cons, ne_eq, Option.some.injEq]
  rintro rfl
  revert h2
  decide

/-- The texts `4294967297` and `4294967296` have exact values that do not fit
an `int`, so no statement made under `FitsInt` speaks of them. -/
theorem atoi_beyond_int :
    atoi "4294967297".data = 4294967297 ∧ ¬ FitsInt (atoi "4294967297".data) ∧
    atoi "4294967296".data = 4294967296 ∧ ¬ FitsInt (atoi "4294967296".data) := by
  refine ⟨by decide, ?_, by decide, ?_⟩
  · rintro ⟨-, h⟩
    revert h
    decide
  · rintro ⟨-, h⟩
    revert h
    decide

/-! ## C1: job numbers -/

set_option maxRecDepth 100000 in
/-- C1 (fails on the code): after fifteen launches (jids 1 to 15), the end of
job 2 and two more launches, the sixteen-slot table holds two live jobs with
job number 1: the sixteenth assigned number wraps `nextjid` to 1 while job 1 is
still live, and the next `addjob` hands 1 out again. The lookup `do_bgfg` makes
for the newest job (pid 117, by way of its jid) then lands on the other job
(pid 101). -/
theorem C1_jid_reused_after_wrap :
    (runOps (initShell false) reuseOps).jobs.map (fun j => (j.pid, j.jid)) =
      [(101, 1), (116, 16), (103, 3), (104, 4), (105, 5), (106, 6), (107, 7), (108, 8),
       (109, 9), (110, 10), (111, 11), (112, 12), (113, 13), (114, 14), (115, 15), (117, 1)] ∧
    ¬ UniqueJids (runOps (initShell false) reuseOps).jobs ∧
    getjobjid (runOps (initShell false) reuseOps).jobs
        (pid2jid (runOps (initShell false) reuseOps) 117) =
      some (0, { pid := 101, pgid := 101, jid := 1, state := BG, cmdline := "sleep 9 &\n" }) := by
  refine ⟨by decide, ?_, by decide⟩
  intro h
  have := h 0 15 ⟨101, 101, 1, BG, "sleep 9 &\n"⟩ ⟨117, 117, 1, BG, "sleep 9 &\n"⟩
    (by decide) (by decide) (by decide) (by decide) (by decide)
  omega

/-! ## C2: at most one foreground job -/

/-- C2: in every supervisor state reachable from the initialized table by
launches and bg/fg commands (taken only when the main loop is not blocked in
`waitfg`) and reaper events (at any time), the number of slots with state `FG`
is 0 or 1. The launch step takes any child pids, in particular fresh ones. -/
theorem C2_at_most_one_foreground (s : Sup) (h : Reachable s) :
    countFG s.sh.jobs = 0 ∨ countFG s.sh.jobs = 1 := by
  have := (reachable_fgInv h).1
  omega

/-- C2 at the state reached by launching `sleep 5` in the foreground, stopping
it, and resuming it with `fg %1`. -/
theorem C2_at_most_one_foreground_witness :
    countFG (shJob5 FG).jobs = 0 ∨ countFG (shJob5 FG).jobs = 1 :=
  C2_at_most_one_foreground { sh := shJob5 FG, waited := some 5 } reachable_shJob5_FG

/-! ## C3: the contract of `addjob` -/

/-- C3: `addjob` returns 0 exactly when `pid <= 0` or no slot is Empty, and
then the globals are unchanged; otherwise it returns 1, the first Empty slot
holds `(pid, pgid, state, jid = the previous nextjid, cmdline)` afterwards, and
every other slot, so every slot that was live, is unchanged. -/
theorem C3_addjob_contract (sh : Shell) (pid pgid state : Int) (cmdline : String) :
    ((addjob sh pid pgid state cmdline).2.1 = 0 ↔ (pid ≤ 0 ∨ ∀ x ∈ sh.jobs, x.pid ≠ 0)) ∧
    ((addjob sh pid pgid state cmdline).2.1 = 0 → (addjob sh pid pgid state cmdline).1 = sh) ∧
    ((addjob sh pid pgid state cmdline).2.1 ≠ 0 →
      (addjob sh pid pgid state cmdline).2.1 = 1 ∧
      ∃ (i : Nat) (e : job_t), IsFirst (fun j => j.pid == 0) sh.jobs i e ∧
        (addjob sh pid pgid state cmdline).1.jobs[i]? =
          some { pid := pid, pgid := pgid, jid := sh.nextjid, state := state,
                 cmdline := cmdline } ∧
        (addjob sh pid pgid state cmdline).1.jobs.length = sh.jobs.length ∧
        (∀ k : Nat, k ≠ i → (addjob sh pid pgid state cmdline).1.jobs[k]? = sh.jobs[k]?) ∧
        (∀ (k : Nat) (a : job_t), sh.jobs[k]? = some a → a.pid ≠ 0 →
          (addjob sh pid pgid state cmdline).1.jobs[k]? = some a)) := by
  by_cases hpid : pid < 1
  · have h0 : addjob sh pid pgid state cmdline = (sh, 0, []) := by simp [addjob, hpid]
    rw [h0]
    refine ⟨?_, ?_, ?_⟩
    · simp; left; omega
    · simp
    · simp
  · cases hfs : firstSlot (fun j => j.pid == 0) sh.jobs with
    | none =>
      have h0 : addjob sh pid pgid state cmdline =
          (sh, 0, [Event.printf "Tried to create too many jobs\n" []]) := by
        simp [addjob, hpid, hfs]
      have hall := firstSlot_eq_none.mp hfs
      rw [h0]
      refine ⟨?_, ?_, ?_⟩
      · simp
        right
        intro x hx
        simpa using hall x hx
      · simp
      · simp
    | some r =>
      obtain ⟨i, e⟩ := r
      have hfirst := firstSlot_isFirst hfs
      have hlt : i < sh.jobs.length := (List.getElem?_eq_some.mp hfirst.1).1
      have h1 : (addjob sh pid pgid state cmdline).2.1 = 1 := by
        simp [addjob, hpid, hfs]
      have hj : (addjob sh pid pgid state cmdline).1.jobs =
          sh.jobs.set i { pid := pid, pgid := pgid, jid := sh.nextjid, state := state,
                          cmdline := cmdline } := by
        simp [addjob, hpid, hfs]
      rw [h1, hj]
      refine ⟨?_, by simp, ?_⟩
      · simp
        constructor
        · omega
        · exact ⟨e, List.getElem?_mem hfirst.1, by simpa using hfirst.2.1⟩
      · intro _
        refine ⟨rfl, i, e, hfirst, ?_, by simp, ?_, ?_⟩
        · simp [List.getElem?_set, hlt]
        · intro k hk
          simp [List.getElem?_set, Ne.symm hk]
        · intro k a hk ha
          have hne : i ≠ k := by
            rintro rfl
            have : e = a := by
              have := hfirst.1
              rw [hk] at this
              exact (Option.some.inj this).symm
            subst this
            have := hfirst.2.1
            simp at this
            exact ha this
          simp [List.getElem?_set, hne, hk]

/-! ## C4 and C5: the launcher's registration -/

/-- C4 (fails on the code for a background launch): on a table with no Empty slot,
a foreground launch prints the table-full diagnostic, changes nothing and goes
on to `waitfg`; a background launch whose group leader pid is the pid of no
slot (every fresh pid) then reads `job->jid` through the `NULL` that
`getjobpid(jobs, groupPid)` returned. -/
theorem C4_full_table_launch (sh : Shell) (pids : List Int) (cmdline : String) (g0 m0 : Int)
    (hfull : ∀ j ∈ sh.jobs, j.pid ≠ 0) (hne : pids ≠ []) (hpos : ∀ p ∈ pids, 0 < p) :
    evalLaunch sh false pids cmdline g0 m0 =
      some (sh, [Event.printf "Tried to create too many jobs\n" [],
                 Event.waitfg (pids.getLast hne)]) ∧
    ((∀ j ∈ sh.jobs, j.pid ≠ pids.head hne) →
      evalLaunch sh true pids cmdline g0 m0 = none) := by
  have hlast : 0 < pids.getLast hne := hpos _ (List.getLast_mem hne)
  refine ⟨?_, ?_⟩
  · rw [evalLaunch_eq sh false pids cmdline g0 m0 hne, evalRegister_fg,
      addjob_full hfull _ _ _ _ hlast]
    rfl
  · intro hfresh
    rw [evalLaunch_eq sh true pids cmdline g0 m0 hne, evalRegister_bg,
      addjob_full hfull _ _ _ _ hlast]
    simp only
    rw [getjobpid_eq_none hfresh]

set_option maxRecDepth 100000 in
/-- C4 at the sixteen-job table and a one-stage launch as pid 200: the
foreground launch is reported, the background launch dereferences `NULL`. -/
theorem C4_full_table_launch_witness :
    evalLaunch fullShell false [200] "sleep 1 &\n" 0 0 =
        some (fullShell, [Event.printf "Tried to create too many jobs\n" [],
                 Event.waitfg 200]) ∧
    evalLaunch fullShell true [200] "sleep 1 &\n" 0 0 = none := by
  have h := C4_full_table_launch fullShell [200] "sleep 1 &\n" 0 0 (by decide) (by decide) (by decide)
  exact ⟨h.1, h.2 (by decide)⟩

/-- C5 (fails on the code for a background pipeline of two or more stages): with
an Empty slot `i`, positive child pids and `verbose` off, a foreground launch
writes the job (pid = last stage, pgid = first stage, state `FG`, the command
line, jid = the previous nextjid) into slot `i` and prints nothing; a one-stage
background launch under a pid no slot holds writes the `BG` job and prints the
announcement once, with the new job number; a background launch of two or more
stages with distinct pids, whose first pid no slot holds, looks the job up
under the first stage's pid, finds none and dereferences `NULL`. -/
theorem C5_launch_registration (sh : Shell) (pids : List Int) (cmdline : String) (g0 m0 : Int)
    (i : Nat) (e : job_t) (hne : pids ≠ []) (hpos : ∀ p ∈ pids, 0 < p)
    (hfirst : IsFirst (fun j => j.pid == 0) sh.jobs i e)
    (hquiet : sh.verbose = false) :
    evalLaunch sh false pids cmdline g0 m0 =
      some ({ sh with
              jobs := sh.jobs.set i { pid := pids.getLast hne, pgid := pids.head hne,
                                      jid := sh.nextjid, state := FG, cmdline := cmdline },
              nextjid := if sh.nextjid + 1 > (MAXJOBS : Int) then 1 else sh.nextjid + 1 },
            [Event.write i, Event.waitfg (pids.getLast hne)]) ∧
    (pids.length = 1 → (∀ j ∈ sh.jobs, j.pid ≠ pids.getLast hne) →
      evalLaunch sh true pids cmdline g0 m0 =
        some ({ sh with
                jobs := sh.jobs.set i { pid := pids.getLast hne, pgid := pids.head hne,
                                        jid := sh.nextjid, state := BG, cmdline := cmdline },
                nextjid := if sh.nextjid + 1 > (MAXJOBS : Int) then 1 else sh.nextjid + 1 },
              [Event.write i,
               Event.printf "[%d] (%d) %s\n"
                 [.int sh.nextjid, .int (pids.getLast hne), .str cmdline],
               Event.waitfg (pids.getLast hne)])) ∧
    (2 ≤ pids.length → pids.Nodup → (∀ j ∈ sh.jobs, j.pid ≠ pids.head hne) →
      evalLaunch sh true pids cmdline g0 m0 = none) := by
  have hlast : 0 < pids.getLast hne := hpos _ (List.getLast_mem hne)
  refine ⟨?_, ?_, ?_⟩
  · rw [evalLaunch_eq sh false pids cmdline g0 m0 hne, evalRegister_fg,
      addjob_room hfirst _ _ _ _ hlast]
    simp [hquiet]
  · intro hlen hfresh
    have hhead : pids.head hne = pids.getLast hne := by
      cases pids with
      | nil => exact absurd rfl hne
      | cons p ps =>
        cases ps with
        | nil => rfl
        | cons q qs => simp at hlen
    rw [evalLaunch_eq sh true pids cmdline g0 m0 hne, evalRegister_bg,
      addjob_room hfirst _ _ _ _ hlast]
    simp only
    have hfound : getjobpid
        (sh.jobs.set i { pid := pids.getLast hne, pgid := pids.head hne, jid := sh.nextjid,
                         state := BG, cmdline := cmdline })
        (pids.head hne) =
        some (i, { pid := pids.getLast hne, pgid := pids.head hne, jid := sh.nextjid,
                   state := BG, cmdline := cmdline }) := by
      unfold getjobpid
      have : ¬ pids.head hne < 1 := by rw [hhead]; omega
      simp only [this, if_false]
      apply isFirst_firstSlot
      apply isFirst_set hfirst.1
      · simp [hhead]
      · intro k y hk hy
        have := hfresh y (List.getElem?_mem hy)
        simpa [hhead] using this
    rw [hfound]
    simp [hquiet, hhead]
  · intro hlen hnd hfresh
    have hhl := head_ne_getLast hne hlen hnd
    rw [evalLaunch_eq sh true pids cmdline g0 m0 hne, evalRegister_bg,
      addjob_room hfirst _ _ _ _ hlast]
    simp only
    rw [getjobpid_eq_none]
    intro j hj
    rcases List.mem_or_eq_of_mem_set hj with hm | rfl
    · exact hfresh j hm
    · exact fun h => hhl h.symm

/-- C5 at the fresh table and the two-stage background pipeline with pids 5
and 6. -/
theorem C5_launch_registration_witness :
    evalLaunch (initShell false) true [5, 6] "ls | wc &\n" 0 0 = none :=
  (C5_launch_registration (initShell false) [5, 6] "ls | wc &\n" 0 0 0
    { pid := 0, pgid := 0, jid := 0, state := 0, cmdline := "" }
    (by decide) (by decide) (firstSlot_isFirst (by decide)) rfl).2.2
    (by decide) (by decide) (by decide)

/-! ## C6 and C7: the reaper -/

/-- C6: for a reaped pid > 0 held by slot `i` (the first slot with that pid), one
iteration of the `sigchld_handler` loop does this. Normal exit: no output, slot
`i` is cleared. Killed by signal `n`: it prints `Job [jid] (pid) terminated by
signal n` with the job's number, then clears slot `i`. Stopped by signal `n`:
it prints `Job [jid] (pid) stopped by signal n` and sets the state of slot `i`
to `ST`; the slot keeps its pid, so it is not Empty. Every other slot is
unchanged in all three cases. -/
theorem C6_reaper_tracked_job (sh : Shell) (pid : Int) (i : Nat) (job : job_t) (c n : Int)
    (hpos : 0 < pid) (hfirst : IsFirst (fun j => j.pid == pid) sh.jobs i job) :
    sigchldIter sh pid (WStatus.exited c) =
      some ({ sh with jobs := sh.jobs.set i (clearjob job),
                      nextjid := maxjid (sh.jobs.set i (clearjob job)) + 1 },
            [Event.write i]) ∧
    sigchldIter sh pid (WStatus.signaled n) =
      some ({ sh with jobs := sh.jobs.set i (clearjob job),
                      nextjid := maxjid (sh.jobs.set i (clearjob job)) + 1 },
            [Event.printf "Job [%d] (%d) terminated by signal %d\n"
               [.int job.jid, .int pid, .int n],
             Event.write i]) ∧
    sigchldIter sh pid (WStatus.stopped n) =
      some ({ sh with jobs := sh.jobs.set i { job with state := ST } },
            [Event.printf "Job [%d] (%d) stopped by signal %d\n"
               [.int job.jid, .int pid, .int n],
             Event.write i]) ∧
    (∀ (x : job_t) (k : Nat), k ≠ i → (sh.jobs.set i x)[k]? = sh.jobs[k]?) ∧
    (∀ x : job_t, (sh.jobs.set i x)[i]? = some x) ∧
    (clearjob job).pid = 0 ∧ (clearjob job).jid = 0 ∧ (clearjob job).state = UNDEF ∧
    ({ job with state := ST } : job_t).pid = pid := by
  have hlt : i < sh.jobs.length := (List.getElem?_eq_some.mp hfirst.1).1
  obtain ⟨h1, h2, h3⟩ := sigchldIter_tracked hfirst hpos c n
  refine ⟨h1, h2, h3, ?_, ?_, rfl, rfl, rfl, ?_⟩
  · intro x k hk
    simp [List.getElem?_set, Ne.symm hk]
  · intro x
    simp [List.getElem?_set, hlt]
  · simpa using hfirst.2.1

/-- C6 at the table holding the foreground job 1 (pid 5), killed by signal 2. -/
theorem C6_reaper_tracked_job_witness :
    sigchldIter shFg5 5 (WStatus.signaled 2) =
      some ({ shFg5 with jobs := shFg5.jobs.set 0 (clearjob (job5 FG)), nextjid := 1 },
            [Event.printf "Job [%d] (%d) terminated by signal %d\n" [.int 1, .int 5, .int 2],
             Event.write 0]) :=
  (C6_reaper_tracked_job shFg5 5 0 (job5 FG) 0 2 (by decide)
    (firstSlot_isFirst (by decide))).2.1

/-- C7 (fails on the code for a stopped status): for a reaped pid > 0 that no
live job holds, one iteration of the `sigchld_handler` loop leaves the globals
unchanged for an exited, a killed and a continued status (printing the
termination message with job number 0 for a killed one), but for a stopped
status `updateJobState` stores through the `NULL` that `getjobpid` returned. -/
theorem C7_reaper_untracked (sh : Shell) (pid : Int) (c n : Int) (hpos : 0 < pid)
    (hun : ∀ j ∈ sh.jobs, j.pid ≠ 0 → j.pid ≠ pid) :
    sigchldIter sh pid (WStatus.exited c) = some (sh, []) ∧
    sigchldIter sh pid (WStatus.signaled n) =
      some (sh, [Event.printf "Job [%d] (%d) terminated by signal %d\n"
                   [.int 0, .int pid, .int n]]) ∧
    sigchldIter sh pid WStatus.continued = some (sh, []) ∧
    sigchldIter sh pid (WStatus.stopped n) = none := by
  have habs : ∀ j ∈ sh.jobs, j.pid ≠ pid := by
    intro j hj h
    exact hun j hj (by omega) h
  have hgt : pid > 0 := hpos
  have hjid := pid2jid_of_absent habs
  refine ⟨?_, ?_, ?_, ?_⟩
  · simp [sigchldIter, hgt, WIFEXITED, WIFSTOPPED, WIFCONTINUED, deletejob_of_absent habs]
  · simp [sigchldIter, hgt, WIFEXITED, WIFSIGNALED, WIFSTOPPED, WIFCONTINUED, WTERMSIG,
      deletejob_of_absent habs, hjid]
  · simp [sigchldIter, hgt, WIFEXITED, WIFSIGNALED, WIFSTOPPED, WIFCONTINUED]
  · simp [sigchldIter, hgt, WIFEXITED, WIFSIGNALED, WIFSTOPPED, updateJobState,
      getjobpid_eq_none habs]

/-- C7 at the fresh table: pid 7, tracked by no job, is reported stopped by
signal 20. -/
theorem C7_reaper_untracked_witness : sigchldIter (initShell false) 7 (WStatus.stopped 20) = none :=
  (C7_reaper_untracked (initShell false) 7 0 20 (by decide) (by decide)).2.2.2

/-! ## C8: signal targets -/

/-- C8 (fails on the code whenever a job's pid differs from its pgid): the two
relay handlers never change the table and send nothing when no slot is `FG`;
with a foreground job they send SIGINT / SIGTSTP to minus that job's `pid`
(what `fgpid` returns), and `do_bgfg` sends SIGCONT to minus the resolved
Stopped job's `pid`. The `pgid` field is never read. -/
theorem C8_signal_targets (sh : Shell) :
    (∀ (i : Nat) (job : job_t), IsFirst (fun j => j.state == FG) sh.jobs i job → 0 < job.pid →
      sigint_handler sh = (sh, [Event.kill (-job.pid) Sig.SIGINT, Event.printf "\n" []]) ∧
      sigtstp_handler sh = (sh, [Event.kill (-job.pid) Sig.SIGTSTP, Event.printf "\n" []])) ∧
    ((∀ j ∈ sh.jobs, j.state ≠ FG) →
      sigint_handler sh = (sh, [Event.printf "\n" []]) ∧
      sigtstp_handler sh = (sh, [Event.printf "\n" []])) ∧
    (∀ (cmd a : String) (jid : Int) (k : Nat) (J : job_t) (sh2 : Shell) (t : List Event),
      bgfgResolve sh cmd a = .ok jid → getjobjid sh.jobs jid = some (k, J) → J.state = ST →
      do_bgfg sh cmd (some a) = some (sh2, t) →
      signals t = [Event.kill (-J.pid) Sig.SIGCONT]) := by
  refine ⟨?_, ?_, ?_⟩
  · intro i job hfirst hpos
    have hgt : job.pid > 0 := hpos
    simp [sigint_handler, sigtstp_handler, fgpid_of_isFirst hfirst, hgt]
  · intro hno
    simp [sigint_handler, sigtstp_handler, fgpid_of_noFG hno]
  · intro cmd a jid k J sh2 t hr hg hst hd
    rcases do_bgfg_some hd with ⟨-, fmt, args, rfl⟩ | ⟨a2, jid2, i2, job2, t2, ha, hr2, hg2, hu, rfl⟩
    · exfalso
      unfold do_bgfg at hd
      simp only [hr, hg] at hd
      cases hu : updateJobState sh J.pid (bgfgState cmd) with
      | none => simp [hu] at hd
      | some r =>
        obtain ⟨sh3, t3⟩ := r
        obtain ⟨i3, job3, -, -, -, rfl⟩ := updateJobState_some hu
        simp [hu, hst] at hd
    · cases ha
      rw [hr] at hr2
      cases hr2
      rw [hg] at hg2
      cases hg2
      obtain ⟨i3, job3, -, -, -, rfl⟩ := updateJobState_some hu
      by_cases h1 : bgfgState cmd = BG <;> by_cases h2 : bgfgState cmd = FG <;>
        simp [signals, hst, h1, h2]

/-- C8 at the table holding the foreground pipeline `ls | wc` (pid 6, pgid 5):
the signals go to -6, not to the process group -5. -/
theorem C8_signal_targets_witness :
    sigint_handler shPipe = (shPipe, [Event.kill (-6) Sig.SIGINT, Event.printf "\n" []]) ∧
    sigtstp_handler shPipe = (shPipe, [Event.kill (-6) Sig.SIGTSTP, Event.printf "\n" []]) ∧
    shPipe.jobs[0]? = some { pid := 6, pgid := 5, jid := 1, state := FG, cmdline := "ls | wc\n" } :=
  ⟨((C8_signal_targets shPipe).1 0
      { pid := 6, pgid := 5, jid := 1, state := FG, cmdline := "ls | wc\n" }
      (firstSlot_isFirst (by decide)) (by decide)).1,
   ((C8_signal_targets shPipe).1 0
      { pid := 6, pgid := 5, jid := 1, state := FG, cmdline := "ls | wc\n" }
      (firstSlot_isFirst (by decide)) (by decide)).2,
   by decide⟩

/-! ## C9: bg/fg argument errors -/

/-- C9 as stated fails: `1abc` is not a number, yet `bg %1abc` on the table
holding the stopped job 1 is not rejected: `atoi` reads 1, the job is sent
SIGCONT, set to `BG` and announced. -/
theorem C9_counterexample :
    "1abc".data.all Char.isDigit = false ∧
    (shJob5 ST).jobs[0]? = some (job5 ST) ∧
    do_bgfg (shJob5 ST) "bg" (some "%1abc") =
      some (shJob5 BG,
        [Event.kill (-5) Sig.SIGCONT, Event.write 0,
         Event.printf "[%d] (%d) %s" [.int 1, .int 5, .str "sleep 5\n"]]) ∧
    do_bgfg (shJob5 ST) "bg" (some "%1abc") ≠
      some (shJob5 ST, [Event.printf "%s: argument must be a PID or %%job id\n" [.str "bg"]]) := by
  refine ⟨by decide, by decide, by decide, by decide⟩

/-- C9, amended: on a table whose Empty slots have jid 0, `do_bgfg` prints one
message, sends no signal, does not wait and leaves the globals unchanged when
the argument is missing; when the text after the optional `%` marker has the
value 0 under `atoi` (no leading number, or the number 0); when it is a number
other than 0 that fits an `int` and is the pid of no live job; and when it is
`%` and a number other than 0 that fits an `int` and is the jid of no live job.
Nothing is stated for a number that does not fit an `int`. -/
theorem C9_bgfg_rejects (sh : Shell) (cmd : String)
    (hclear : ∀ j ∈ sh.jobs, j.pid = 0 → j.jid = 0) :
    do_bgfg sh cmd none =
      some (sh, [Event.printf "%s command requires PID or %%job id argument\n" [.str cmd]]) ∧
    (∀ a : String, a.data.head? = some '%' → atoi a.data.tail = 0 →
      do_bgfg sh cmd (some a) =
        some (sh, [Event.printf "%s: argument must be a PID or %%job id\n" [.str cmd]])) ∧
    (∀ a : String, a.data.head? ≠ some '%' → atoi a.data = 0 →
      do_bgfg sh cmd (some a) =
        some (sh, [Event.printf "%s: argument must be a PID or %%job id\n" [.str cmd]])) ∧
    (∀ a : String, a.data.head? ≠ some '%' → atoi a.data ≠ 0 → FitsInt (atoi a.data) →
      (∀ j ∈ sh.jobs, j.pid ≠ 0 → j.pid ≠ atoi a.data) →
      do_bgfg sh cmd (some a) =
        some (sh, [Event.printf "(%d): No such process\n" [.int (atoi a.data)]])) ∧
    (∀ a : String, a.data.head? = some '%' → atoi a.data.tail ≠ 0 →
      FitsInt (atoi a.data.tail) →
      (∀ j ∈ sh.jobs, j.pid ≠ 0 → j.jid ≠ atoi a.data.tail) →
      do_bgfg sh cmd (some a) =
        some (sh, [Event.printf "%%%d: No such job\n" [.int (atoi a.data.tail)]])) := by
  refine ⟨rfl, ?_, ?_, ?_, ?_⟩
  · intro a hh h0
    simp [do_bgfg, bgfgResolve, hh, h0]
  · intro a hh h0
    simp [do_bgfg, bgfgResolve, hh, h0]
  · intro a hh h0 _ hun
    have habs : ∀ j ∈ sh.jobs, j.pid ≠ atoi a.data := by
      intro j hj h
      exact hun j hj (by rw [h]; exact h0) h
    simp [do_bgfg, bgfgResolve, hh, h0, pid2jid_of_absent habs]
  · intro a hh h0 _ hun
    have habs : ∀ j ∈ sh.jobs, j.jid ≠ atoi a.data.tail := by
      intro j hj h
      by_cases hp : j.pid = 0
      · have := hclear j hj hp
        rw [this] at h
        exact h0 h.symm
      · exact hun j hj hp h
    simp [do_bgfg, bgfgResolve, hh, h0, getjobjid_eq_none habs]

/-- C9, amended, at the table holding the stopped job 1 and `bg %7`. -/
theorem C9_bgfg_rejects_witness :
    do_bgfg (shJob5 ST) "bg" (some "%7") =
      some (shJob5 ST, [Event.printf "%%%d: No such job\n" [.int 7]]) :=
  (C9_bgfg_rejects (shJob5 ST) "bg" (by decide)).2.2.2.2 "%7"
    (by decide) (by decide) ⟨by decide, by decide⟩ (by decide)

/-! ## C10: stop, then bg -/

theorem stop_then_bg_of_atoi (sh : Shell) (i : Nat) (J : job_t) (n : Int) (arg : String)
    (hJ : sh.jobs[i]? = some J) (hlive : J.pid ≠ 0) (htidy : Tidy sh.jobs)
    (hpids : UniquePids sh.jobs) (hjids : UniqueJids sh.jobs)
    (harg : (arg.data.head? = some '%' ∧ atoi arg.data.tail = J.jid) ∨
            (arg.data.head? ≠ some '%' ∧ atoi arg.data = J.pid)) :
    sigchldIter sh J.pid (WStatus.stopped n) =
      some ({ sh with jobs := sh.jobs.set i { J with state := ST } },
            [Event.printf "Job [%d] (%d) stopped by signal %d\n"
               [.int J.jid, .int J.pid, .int n],
             Event.write i]) ∧
    do_bgfg { sh with jobs := sh.jobs.set i { J with state := ST } } "bg" (some arg) =
      some ({ sh with jobs := sh.jobs.set i { J with state := BG } },
            [Event.kill (-J.pid) Sig.SIGCONT, Event.write i,
             Event.printf "[%d] (%d) %s" [.int J.jid, .int J.pid, .str J.cmdline]]) ∧
    (∀ (x : job_t) (k : Nat), k ≠ i → (sh.jobs.set i x)[k]? = sh.jobs[k]?) ∧
    (∀ x : job_t, (sh.jobs.set i x)[i]? = some x) := by
  have hlt : i < sh.jobs.length := (List.getElem?_eq_some.mp hJ).1
  have hok := (htidy J (List.getElem?_mem hJ)).2 hlive
  have hpos : 0 < J.pid := by omega
  have hfp := isFirst_of_uniquePids hJ hlive hpids
  have hfj := isFirst_of_uniqueJids hJ hlive hjids htidy
  have hfp2 : IsFirst (fun j => j.pid == J.pid) (sh.jobs.set i { J with state := ST }) i
      { J with state := ST } := isFirst_set hJ (by simp) hfp.2.2
  have hfj2 : IsFirst (fun j => j.jid == J.jid) (sh.jobs.set i { J with state := ST }) i
      { J with state := ST } := isFirst_set hJ (by simp) hfj.2.2
  refine ⟨?_, ?_, ?_, ?_⟩
  · exact (sigchldIter_tracked hfp hpos 0 n).2.2
  · have hres : bgfgResolve { sh with jobs := sh.jobs.set i { J with state := ST } } "bg" arg =
        .ok J.jid := by
      rcases harg with ⟨hh, ha⟩ | ⟨hh, ha⟩
      · have : ¬ J.jid = 0 := by omega
        simp [bgfgResolve, hh, ha, this]
      · have h1 : ¬ J.pid = 0 := hlive
        have h2 : ¬ J.jid = 0 := by omega
        have hp : pid2jid { sh with jobs := sh.jobs.set i { J with state := ST } } J.pid =
            J.jid :=
          @pid2jid_of_isFirst { sh with jobs := sh.jobs.set i { J with state := ST } } J.pid i
            { J with state := ST } hfp2 hpos
        simp [bgfgResolve, hh, ha, h1, h2, hp]
    have hget : getjobjid (sh.jobs.set i { J with state := ST }) J.jid =
        some (i, { J with state := ST }) := by
      have : ¬ J.jid < 1 := by omega
      simp [getjobjid, this, isFirst_firstSlot hfj2]
    have hupd := @updateJobState_of_isFirst
      { sh with jobs := sh.jobs.set i { J with state := ST } } J.pid i { J with state := ST }
      hfp2 hpos BG
    have hbg : bgfgState "bg" = BG := by decide
    have h3 : (BG == FG) = false := by decide
    have h4 : (BG == BG) = true := by decide
    simp [do_bgfg, hres, hget, hupd, hbg, h3, h4]
  · intro x k hk
    simp [List.getElem?_set, Ne.symm hk]
  · intro x
    simp [List.getElem?_set, hlt]

/-- C10: on a tidy table whose live slots have pairwise distinct pids and pairwise
distinct job numbers, for a live job `J` in slot `i`: a reaper stop event for
`J`'s pid prints the stop message and sets slot `i` to `ST`; then `bg %<J's
jid>` or `bg <J's pid>` sends SIGCONT, then stores `BG` into slot `i`, then
prints `[jid] (pid) cmdline` for `J`, and does nothing else. Every other slot
is unchanged by both. -/
theorem C10_stop_then_bg (sh : Shell) (i : Nat) (J : job_t) (n : Int) (arg : String)
    (hJ : sh.jobs[i]? = some J) (hlive : J.pid ≠ 0) (htidy : Tidy sh.jobs)
    (hpids : UniquePids sh.jobs) (hjids : UniqueJids sh.jobs)
    (harg : arg = "%" ++ toString J.jid ∨ arg = toString J.pid) :
    sigchldIter sh J.pid (WStatus.stopped n) =
      some ({ sh with jobs := sh.jobs.set i { J with state := ST } },
            [Event.printf "Job [%d] (%d) stopped by signal %d\n"
               [.int J.jid, .int J.pid, .int n],
             Event.write i]) ∧
    do_bgfg { sh with jobs := sh.jobs.set i { J with state := ST } } "bg" (some arg) =
      some ({ sh with jobs := sh.jobs.set i { J with state := BG } },
            [Event.kill (-J.pid) Sig.SIGCONT, Event.write i,
             Event.printf "[%d] (%d) %s" [.int J.jid, .int J.pid, .str J.cmdline]]) ∧
    (∀ (x : job_t) (k : Nat), k ≠ i → (sh.jobs.set i x)[k]? = sh.jobs[k]?) ∧
    (∀ x : job_t, (sh.jobs.set i x)[i]? = some x) := by
  have hok := (htidy J (List.getElem?_mem hJ)).2 hlive
  apply stop_then_bg_of_atoi sh i J n arg hJ hlive htidy hpids hjids
  rcases harg with rfl | rfl
  · exact Or.inl (percent_decimal J.jid (by omega))
  · exact Or.inr (plain_decimal J.pid (by omega))

/-- C10 at the table holding the foreground job 1 (pid 5): stopped by signal
20, then `bg %1`. -/
theorem C10_stop_then_bg_witness :
    sigchldIter shFg5 5 (WStatus.stopped 20) =
      some (shJob5 ST,
            [Event.printf "Job [%d] (%d) stopped by signal %d\n" [.int 1, .int 5, .int 20],
             Event.write 0]) ∧
    do_bgfg (shJob5 ST) "bg" (some "%1") =
      some (shJob5 BG,
            [Event.kill (-5) Sig.SIGCONT, Event.write 0,
             Event.printf "[%d] (%d) %s" [.int 1, .int 5, .str "sleep 5\n"]]) :=
  have h := C10_stop_then_bg shFg5 0 (job5 FG) 20 "%1" (by decide) (by decide)
    (reachable_tidy reachable_shFg5).2
    (fun i k a b hi hk ha hb _ => by rw [shFg5_live hi ha, shFg5_live hk hb])
    (fun i k a b hi hk ha hb _ => by rw [shFg5_live hi ha, shFg5_live hk hb])
    (Or.inl (by decide))
  ⟨h.1, h.2.1⟩

/-! ## The maximum job number -/

theorem maxjid_foldl_spec (jobs : List job_t) (init : Int) :
    (∀ x ∈ jobs, x.jid ≤ jobs.foldl (fun max j => if j.jid > max then j.jid else max) init) ∧
    (jobs.foldl (fun max j => if j.jid > max then j.jid else max) init = init ∨
      ∃ x ∈ jobs, x.jid = jobs.foldl (fun max j => if j.jid > max then j.jid else max) init ∧
        init < x.jid) := by
  induction jobs generalizing init with
  | nil => simp
  | cons j js ih =>
    simp only [List.foldl_cons, List.mem_cons, forall_eq_or_imp]
    by_cases hj : j.jid > init
    · simp only [hj, if_true]
      obtain ⟨h1, h2⟩ := ih j.jid
      refine ⟨⟨maxjid_foldl_ge js j.jid, h1⟩, Or.inr ?_⟩
      rcases h2 with h2 | ⟨x, hx, hxe, hxl⟩
      · exact ⟨j, Or.inl rfl, h2.symm, hj⟩
      · exact ⟨x, Or.inr hx, hxe, by omega⟩
    · simp only [hj, if_false]
      obtain ⟨h1, h2⟩ := ih init
      refine ⟨⟨le_trans (by omega) (maxjid_foldl_ge js init), h1⟩, ?_⟩
      rcases h2 with h2 | ⟨x, hx, hxe, hxl⟩
      · exact Or.inl h2
      · exact Or.inr ⟨x, Or.inr hx, hxe, hxl⟩

theorem le_maxjid {jobs : List job_t} {x : job_t} (hx : x ∈ jobs) : x.jid ≤ maxjid jobs :=
  (maxjid_foldl_spec jobs 0).1 x hx

theorem maxjid_attained (jobs : List job_t) :
    maxjid jobs = 0 ∨ ∃ x ∈ jobs, x.jid = maxjid jobs ∧ 0 < x.jid :=
  (maxjid_foldl_spec jobs 0).2

theorem maxjid_tidy {jobs : List job_t} (htidy : Tidy jobs) :
    (∀ x ∈ jobs, x.pid ≠ 0 → x.jid < maxjid jobs + 1) ∧
    ((∃ x ∈ jobs, x.pid ≠ 0) → ∃ x ∈ jobs, x.pid ≠ 0 ∧ maxjid jobs + 1 = x.jid + 1) ∧
    ((∀ x ∈ jobs, x.pid = 0) → maxjid jobs + 1 = 1) := by
  refine ⟨?_, ?_, ?_⟩
  · intro x hx _
    have := le_maxjid hx
    omega
  · rintro ⟨y, hy, hyl⟩
    have hy1 := ((htidy y hy).2 hyl).2
    have hyle := le_maxjid hy
    rcases maxjid_attained jobs with h0 | ⟨x, hx, hxe, hxp⟩
    · omega
    · refine ⟨x, hx, ?_, by omega⟩
      intro hp
      have := (htidy x hx).1 hp
      omega
  · intro hall
    rcases maxjid_attained jobs with h0 | ⟨x, hx, hxe, hxp⟩
    · omega
    · have := (htidy x hx).1 (hall x hx)
      omega

/-! ## C11: the contract of `deletejob` -/

/-- C11: when `pid >= 1` and some slot has that pid, `deletejob` returns 1, the
first such slot holds pid 0, jid 0, state `UNDEF` and the empty command text
afterwards, every other slot is unchanged, and `nextjid` is `maxjid(jobs) + 1`
of the new table; on a tidy table (Empty slots have jid 0, live slots have
jid >= 1, as in every table the shell builds) that is one more than the
largest jid among the slots that remain live, and 1 when none remains. In every
other case `deletejob` returns 0 and leaves the globals unchanged. -/
theorem C11_deletejob_contract (sh : Shell) (pid : Int) :
    ((1 ≤ pid ∧ ∃ x ∈ sh.jobs, x.pid = pid) →
      (deletejob sh pid).2.1 = 1 ∧
      ∃ (i : Nat) (job : job_t), IsFirst (fun j => j.pid == pid) sh.jobs i job ∧
        (deletejob sh pid).1.jobs[i]? =
          some { pid := 0, pgid := job.pgid, jid := 0, state := UNDEF, cmdline := "" } ∧
        (deletejob sh pid).1.jobs.length = sh.jobs.length ∧
        (∀ k : Nat, k ≠ i → (deletejob sh pid).1.jobs[k]? = sh.jobs[k]?) ∧
        (deletejob sh pid).1.nextjid = maxjid (deletejob sh pid).1.jobs + 1 ∧
        (Tidy sh.jobs →
          (∀ x ∈ (deletejob sh pid).1.jobs, x.pid ≠ 0 → x.jid < (deletejob sh pid).1.nextjid) ∧
          ((∃ x ∈ (deletejob sh pid).1.jobs, x.pid ≠ 0) →
            ∃ x ∈ (deletejob sh pid).1.jobs, x.pid ≠ 0 ∧
              (deletejob sh pid).1.nextjid = x.jid + 1) ∧
          ((∀ x ∈ (deletejob sh pid).1.jobs, x.pid = 0) →
            (deletejob sh pid).1.nextjid = 1))) ∧
    (¬ (1 ≤ pid ∧ ∃ x ∈ sh.jobs, x.pid = pid) →
      (deletejob sh pid).2.1 = 0 ∧ (deletejob sh pid).1 = sh) := by
  refine ⟨?_, ?_⟩
  · rintro ⟨hpid, x, hx, hxp⟩
    have hpos : 0 < pid := by omega
    cases hfs : firstSlot (fun j => j.pid == pid) sh.jobs with
    | none =>
      have := firstSlot_eq_none.mp hfs x hx
      simp [hxp] at this
    | some r =>
      obtain ⟨i, job⟩ := r
      have hfirst := firstSlot_isFirst hfs
      have hlt : i < sh.jobs.length := (List.getElem?_eq_some.mp hfirst.1).1
      rw [deletejob_of_isFirst hfirst hpos]
      refine ⟨rfl, i, job, hfirst, ?_, by simp, ?_, rfl, ?_⟩
      · simp [List.getElem?_set, hlt, clearjob]
      · intro k hk
        simp [List.getElem?_set, Ne.symm hk]
      · intro htidy
        exact maxjid_tidy (tidy_set htidy i (clearjob job) (by simp [clearjob]))
  · intro hno
    by_cases hpid : pid < 1
    · simp [deletejob, hpid]
    · have habs : ∀ j ∈ sh.jobs, j.pid ≠ pid := by
        intro j hj h
        exact hno ⟨by omega, j, hj, h⟩
      rw [deletejob_of_absent habs]
      simp

/-- C11 at the table holding jobs 1 (pid 5) and 2 (pid 6): when job 2 is
deleted, `nextjid` goes back to 2, one more than the jid of job 1, which is
still live. -/
theorem C11_deletejob_contract_witness :
    (deletejob shTwo 6).2.1 = 1 ∧ (deletejob shTwo 6).1.nextjid = 2 ∧
    (∃ x ∈ (deletejob shTwo 6).1.jobs, x.pid ≠ 0 ∧ (deletejob shTwo 6).1.nextjid = x.jid + 1) ∧
    (deletejob shTwo 7).2.1 = 0 ∧ (deletejob shTwo 7).1 = shTwo :=
  have h := C11_deletejob_contract shTwo 6
  have h6 := h.1 ⟨by decide, by decide⟩
  have h7 := (C11_deletejob_contract shTwo 7).2 (by decide)
  ⟨h6.1, by decide,
    (Exists.elim h6.2 fun _ hi => Exists.elim hi fun _ hj =>
      (hj.2.2.2.2.2 (by unfold Tidy; decide)).2.1 (by decide)),
    h7.1, h7.2⟩

/-! ## C12: what the lookups return -/

theorem isJobState_ne_undef {state : Int} (h : IsJobState state) : state ≠ UNDEF := by
  rcases h with rfl | rfl | rfl <;> decide

theorem liveStates_set {jobs : List job_t} (h : LiveStates jobs) (i : Nat) (x : job_t)
    (hx : x.pid ≠ 0 → x.state ≠ UNDEF) : LiveStates (jobs.set i x) := by
  intro j hj
  rcases List.mem_or_eq_of_mem_set hj with hm | rfl
  · exact h j hm
  · exact hx

theorem tableStep_inv {sh sh2 : Shell} (hstep : TableStep sh sh2)
    (h : (1 ≤ sh.nextjid ∧ Tidy sh.jobs) ∧ LiveStates sh.jobs) :
    (1 ≤ sh2.nextjid ∧ Tidy sh2.jobs) ∧ LiveStates sh2.jobs := by
  cases hstep with
  | add pid pgid state cmdline hst =>
    refine ⟨addjob_tidy h.1 pid pgid state cmdline, ?_⟩
    rcases addjob_jobs sh pid pgid state cmdline with he | ⟨i, he⟩
    · rw [he]; exact h.2
    · rw [he]
      exact liveStates_set h.2 i _ (fun _ => isJobState_ne_undef hst)
  | del pid =>
    refine ⟨deletejob_tidy h.1 pid, ?_⟩
    rcases deletejob_jobs sh pid with he | ⟨i, job, he⟩
    · rw [he]; exact h.2
    · rw [he]
      exact liveStates_set h.2 i _ (fun hp => absurd rfl hp)
  | upd pid state _ t hst hu =>
    refine ⟨updateJobState_tidy h.1 hu, ?_⟩
    obtain ⟨i, job, -, -, rfl, -⟩ := updateJobState_some hu
    exact liveStates_set h.2 i _ (fun _ => isJobState_ne_undef hst)

theorem tableReachable_inv {sh : Shell} (h : TableReachable sh) :
    (1 ≤ sh.nextjid ∧ Tidy sh.jobs) ∧ LiveStates sh.jobs := by
  induction h with
  | init verbose =>
    refine ⟨⟨by simp [initShell], ?_⟩, ?_⟩
    · intro j hj
      simp [initShell, initjobs, zeroJobs] at hj
      obtain ⟨-, rfl⟩ := hj
      simp [clearjob]
    · intro j hj
      simp [initShell, initjobs, zeroJobs] at hj
      obtain ⟨-, rfl⟩ := hj
      simp [clearjob]
  | step _ hstep ih => exact tableStep_inv hstep ih

theorem getjobpid_some {jobs : List job_t} {pid : Int} {i : Nat} {job : job_t}
    (h : getjobpid jobs pid = some (i, job)) :
    1 ≤ pid ∧ jobs[i]? = some job ∧ job.pid = pid := by
  unfold getjobpid at h
  split at h
  · cases h
  · have hf := firstSlot_isFirst h
    exact ⟨by omega, hf.1, by simpa using hf.2.1⟩

theorem getjobjid_some {jobs : List job_t} {jid : Int} {i : Nat} {job : job_t}
    (h : getjobjid jobs jid = some (i, job)) :
    1 ≤ jid ∧ jobs[i]? = some job ∧ job.jid = jid := by
  unfold getjobjid at h
  split at h
  · cases h
  · have hf := firstSlot_isFirst h
    exact ⟨by omega, hf.1, by simpa using hf.2.1⟩

theorem pid2jid_eq_getjobpid (sh : Shell) (pid : Int) :
    pid2jid sh pid =
      match getjobpid sh.jobs pid with
      | some (_, job) => job.jid
      | none => 0 := by
  unfold pid2jid getjobpid
  split
  · rfl
  · rfl

/-- C12: in every table reachable from the initialized table by `addjob` and
`updateJobState` (on a live pid) with a job state and by `deletejob`, the three
lookups report not-found for a key `<= 0`; a slot that `getjobpid` or
`getjobjid` returns is a slot of the table that carries the requested key and
is not Empty (pid not 0, jid >= 1, state not `UNDEF`); `pid2jid(pid)` is the
jid of the slot `getjobpid(pid)` returns, and is 0 exactly when `getjobpid(pid)`
finds none. -/
theorem C12_lookups_never_return_empty (sh : Shell) (hreach : TableReachable sh) :
    (∀ key : Int, key ≤ 0 →
      getjobpid sh.jobs key = none ∧ getjobjid sh.jobs key = none ∧ pid2jid sh key = 0) ∧
    (∀ (pid : Int) (i : Nat) (job : job_t), getjobpid sh.jobs pid = some (i, job) →
      sh.jobs[i]? = some job ∧ job.pid = pid ∧
        job.pid ≠ 0 ∧ 1 ≤ job.jid ∧ job.state ≠ UNDEF) ∧
    (∀ (jid : Int) (i : Nat) (job : job_t), getjobjid sh.jobs jid = some (i, job) →
      sh.jobs[i]? = some job ∧ job.jid = jid ∧
        job.pid ≠ 0 ∧ 1 ≤ job.jid ∧ job.state ≠ UNDEF) ∧
    (∀ pid : Int, pid2jid sh pid =
      match getjobpid sh.jobs pid with
      | some (_, job) => job.jid
      | none => 0) ∧
    (∀ pid : Int, pid2jid sh pid = 0 ↔ getjobpid sh.jobs pid = none) := by
  obtain ⟨⟨-, htidy⟩, hlive⟩ := tableReachable_inv hreach
  refine ⟨?_, ?_, ?_, pid2jid_eq_getjobpid sh, ?_⟩
  · intro key hkey
    have : key < 1 := by omega
    simp [getjobpid, getjobjid, pid2jid, this]
  · intro pid i job hg
    obtain ⟨hpid, hslot, hkey⟩ := getjobpid_some hg
    have hmem := List.getElem?_mem hslot
    have hne : job.pid ≠ 0 := by omega
    exact ⟨hslot, hkey, hne, ((htidy job hmem).2 hne).2, hlive job hmem hne⟩
  · intro jid i job hg
    obtain ⟨hjid, hslot, hkey⟩ := getjobjid_some hg
    have hmem := List.getElem?_mem hslot
    have hne : job.pid ≠ 0 := by
      intro h0
      have := (htidy job hmem).1 h0
      omega
    exact ⟨hslot, hkey, hne, by omega, hlive job hmem hne⟩
  · intro pid
    rw [pid2jid_eq_getjobpid]
    cases hg : getjobpid sh.jobs pid with
    | none => simp
    | some r =>
      obtain ⟨i, job⟩ := r
      obtain ⟨hpid, hslot, hkey⟩ := getjobpid_some hg
      have hmem := List.getElem?_mem hslot
      have hne : job.pid ≠ 0 := by omega
      have := ((htidy job hmem).2 hne).2
      simp only [reduceCtorEq, iff_false]
      omega

theorem tableReachable_shTwo : TableReachable shTwo :=
  TableReachable.step
    (TableReachable.step (TableReachable.init false)
      (TableStep.add (initShell false) 5 5 FG "sleep 5\n" (Or.inl rfl)))
    (TableStep.add (addjob (initShell false) 5 5 FG "sleep 5\n").1 6 6 BG "sleep 6 &\n"
      (Or.inr (Or.inl rfl)))

/-- C12 at the table holding jobs 1 (pid 5) and 2 (pid 6): the lookup of pid 6
returns slot 1, which is live, and the lookup of pid 0 finds nothing. -/
theorem C12_lookups_never_return_empty_witness :
    getjobpid shTwo.jobs 6 =
      some (1, { pid := 6, pgid := 6, jid := 2, state := BG, cmdline := "sleep 6 &\n" }) ∧
    (6 : Int) ≠ 0 ∧ (1 : Int) ≤ 2 ∧ BG ≠ UNDEF ∧
    getjobpid shTwo.jobs 0 = none ∧ getjobjid shTwo.jobs 0 = none ∧ pid2jid shTwo 0 = 0 :=
  have h := C12_lookups_never_return_empty shTwo tableReachable_shTwo
  have hfound : getjobpid shTwo.jobs 6 =
      some (1, { pid := 6, pgid := 6, jid := 2, state := BG, cmdline := "sleep 6 &\n" }) := by
    decide
  have hslot := h.2.1 6 1 _ hfound
  ⟨hfound, hslot.2.2.1, hslot.2.2.2.1, hslot.2.2.2.2, h.1 0 (by decide)⟩

end Tsh
